import Mathlib

/-!
Verification of the plan-normalization core of the repository: a shallow
embedding, over `List Char` strings, of the engine adapters in
`ntp-qo/dbs/mysql.py` and `ntp-qo/dbs/duckdb.py` and of the workload summary
in `ntp-qo/sql_parse/workload.py`, together with proofs settling the frozen
claims about them.

The Python code drives everything through a handful of fixed regular
expressions; each is embedded here as a deterministic scanner that reproduces
the exact search/backtracking behaviour of that pattern (first match wins,
greedy or lazy quantifiers resolved as the pattern forces).  Python floats
that the code produces from `float(...)` on matched groups are represented
exactly as a decimal mantissa together with a power of ten (`PFloat`), and
the `log10(max(n,1)) * 1000.0` cost synthesis of the DuckDB adapter is kept
symbolic (`PCost.logCard n`), since no claim depends on its numeric value.
-/

/-- Strings are modelled as lists of characters so that every operation
reduces inside the kernel. -/
abbrev LStr : Type := List Char

/-- Coerce a Lean string literal to the `List Char` model. -/
def str (s : String) : LStr := s.data

/-- Python regex `\s` on the ASCII range: space, tab, newline, carriage
return, vertical tab, form feed. -/
def isPySpace (c : Char) : Bool :=
  c == ' ' || c == '\t' || c == '\n' || c == '\r' || c == '\x0b' || c == '\x0c'

/-- Python regex `\w` on the ASCII range: letters, digits and underscore. -/
def isWordChar (c : Char) : Bool :=
  c.isAlphanum || c == '_'

/-- Character class `[0-9.e+\-]` of the mysql `cost=`/`rows=` patterns. -/
def isCostChar (c : Char) : Bool :=
  c.isDigit || c == '.' || c == 'e' || c == '+' || c == '-'

/-- Character class `[0-9.]` of the `actual time=` pattern. -/
def isNumDotChar (c : Char) : Bool :=
  c.isDigit || c == '.'

/-- Character class `[\d,]` of the DuckDB row-estimate pattern. -/
def isDigitComma (c : Char) : Bool :=
  c.isDigit || c == ','

/-- Python `str.strip()`: drop whitespace at both ends. -/
def pyStrip (s : LStr) : LStr :=
  ((s.dropWhile isPySpace).reverse.dropWhile isPySpace).reverse

/-- Python `pat in s` substring test. -/
def isSubstr (pat : LStr) : LStr → Bool
  | [] => pat.isEmpty
  | c :: rest => List.isPrefixOf pat (c :: rest) || isSubstr pat rest

/-- Python `s.find(pat)`: index of the first occurrence, if any. -/
def findSub (pat : LStr) : LStr → Option Nat
  | [] => if pat.isEmpty then some 0 else none
  | c :: rest =>
    if List.isPrefixOf pat (c :: rest) then some 0
    else (findSub pat rest).map (· + 1)

/-- Drop an exact prefix, returning the remainder on success. -/
def dropPre : LStr → LStr → Option LStr
  | [], s => some s
  | _ :: _, [] => none
  | p :: ps, c :: cs => if p == c then dropPre ps cs else none

/-- Lowercase a string (ASCII, as all inputs here are). -/
def lowerL (s : LStr) : LStr := s.map Char.toLower

/-- Uppercase a string (ASCII, as all inputs here are). -/
def upperL (s : LStr) : LStr := s.map Char.toUpper

/-- Case-insensitive literal match of `pat` (given lowercase) against a
prefix of `s`; returns the matched original text and the remainder. -/
def matchCI : LStr → LStr → Option (LStr × LStr)
  | [], s => some ([], s)
  | _ :: _, [] => none
  | p :: ps, c :: cs =>
    if c.toLower == p.toLower then
      (matchCI ps cs).map (fun pr => (c :: pr.1, pr.2))
    else none

/-- Search semantics of `re.search(key + class-run, line)`: at the first
position where `key` occurs followed by at least one character of class
`cls`, capture the maximal run of class characters.  If the key occurs but
no class character follows, the regex engine keeps scanning, which the
recursion on the tail reproduces. -/
def searchKeyRun (key : LStr) (cls : Char → Bool) : LStr → Option LStr
  | [] => none
  | c :: rest =>
    match dropPre key (c :: rest) with
    | some after =>
      let run := after.takeWhile cls
      if run.isEmpty then searchKeyRun key cls rest else some run
    | none => searchKeyRun key cls rest

/-- Exact decimal scientific value `num * 10 ^ exp10` of a Python float
literal parsed from a matched group.  Kept unreduced so that every adapter
computation stays kernel-evaluable. -/
structure PFloat where
  num : Int
  exp10 : Int
deriving DecidableEq, Repr

/-- Denotation of a `PFloat` as a rational number. -/
def PFloat.toRat (f : PFloat) : ℚ := (f.num : ℚ) * 10 ^ f.exp10

/-- Numeric value of a digit string. -/
def digitsVal (ds : LStr) : Int :=
  ds.foldl (fun a c => a * 10 + (c.toNat - 48 : Nat)) 0

/-- Exponent part of a Python float literal over the `[0-9.e+\-]` alphabet:
empty means exponent 0, otherwise `e` followed by an optionally signed
digit string consuming the rest. -/
def parseExpPart : LStr → Option Int
  | [] => some 0
  | 'e' :: r =>
    let sgnRest : Int × LStr :=
      match r with
      | '+' :: r2 => (1, r2)
      | '-' :: r2 => (-1, r2)
      | r2 => (1, r2)
    let ds := sgnRest.2.takeWhile Char.isDigit
    if ds.isEmpty || !(sgnRest.2.drop ds.length).isEmpty then none
    else some (sgnRest.1 * digitsVal ds)
  | _ => none

/-- Python `float(s)` on strings over the `[0-9.e+\-]` alphabet (the only
strings the mysql cost/rows groups can produce): optional sign, then either
digits with an optional fraction or a fraction alone, then an optional
exponent; anything else raises, modelled as `none`. -/
def parsePyFloat (s : LStr) : Option PFloat :=
  let sgnRest : Int × LStr :=
    match s with
    | '+' :: r => (1, r)
    | '-' :: r => (-1, r)
    | r => (1, r)
  let ip := sgnRest.2.takeWhile Char.isDigit
  let s2 := sgnRest.2.drop ip.length
  match s2 with
  | '.' :: r =>
    let fp := r.takeWhile Char.isDigit
    let s3 := r.drop fp.length
    if ip.isEmpty && fp.isEmpty then none
    else
      (parseExpPart s3).map fun e =>
        ⟨sgnRest.1 * digitsVal (ip ++ fp), e - fp.length⟩
  | s3 =>
    if ip.isEmpty then none
    else (parseExpPart s3).map fun e => ⟨sgnRest.1 * digitsVal ip, e⟩

/-- Digit run of a Python `int` literal, allowing single underscores
between digits as Python does. -/
def pyIntDigits : LStr → Option Int :=
  fun s =>
    match s with
    | c :: r => if c.isDigit then go ((c.toNat - 48 : Nat) : Int) r else none
    | [] => none
where
  go (acc : Int) : LStr → Option Int
    | [] => some acc
    | '_' :: c :: r =>
      if c.isDigit then go (acc * 10 + ((c.toNat - 48 : Nat) : Int)) r else none
    | c :: r =>
      if c.isDigit then go (acc * 10 + ((c.toNat - 48 : Nat) : Int)) r else none

/-- Python `int(s)` for strings: strip whitespace, optional sign, digits. -/
def parsePyInt (s : LStr) : Option Int :=
  match pyStrip s with
  | '+' :: r => pyIntDigits r
  | '-' :: r => (pyIntDigits r).map Int.neg
  | r => pyIntDigits r

example : parsePyFloat (str "120.5") = some ⟨1205, -1⟩ := rfl
example : parsePyFloat (str "..") = none := rfl
example : parsePyFloat (str "1e-3") = some ⟨1, -3⟩ := rfl
example : parsePyFloat (str "1000") = some ⟨1000, 0⟩ := rfl
example : parsePyInt (str " 1_234 ") = some 1234 := rfl
example : parsePyInt (str "12a") = none := rfl
example : isSubstr (str "->") (str "  -> x") = true := rfl
example : findSub (str "->") (str "    -> m") = some 4 := rfl
example : pyStrip (str "  a b  ") = str "a b" := rfl
example : PFloat.toRat ⟨1205, -1⟩ = 241 / 2 := by norm_num [PFloat.toRat]

/-- JSON-ish value occurring inside a DuckDB `extra_info` map: a string, a
null, or an array (the shapes the adapter's field extractors must face). -/
inductive JVal where
  | jstr : LStr → JVal
  | jnull : JVal
  | jarr : List JVal → JVal

/-- The apostrophe character, used by the Python `repr` of strings. -/
def sqChar : Char := Char.ofNat 39

mutual
/-- Python `repr` of a `JVal` (as used inside `str` of a list); strings are
wrapped in single quotes. -/
def pyReprJ : JVal → LStr
  | .jstr s => sqChar :: (s ++ [sqChar])
  | .jnull => str "None"
  | .jarr xs => '[' :: (pyReprJList xs ++ [']'])
termination_by structural v => v

/-- Comma-separated `repr` list, as Python renders list elements. -/
def pyReprJList : List JVal → LStr
  | [] => []
  | [x] => pyReprJ x
  | x :: y :: r => pyReprJ x ++ str ", " ++ pyReprJList (y :: r)
termination_by structural l => l
end

/-- Python `str(v)`: identity on strings, bracketed repr of arrays. -/
def pyStrJ : JVal → LStr
  | .jstr s => s
  | .jnull => str "None"
  | .jarr xs => '[' :: (pyReprJList xs ++ [']'])

/-- Python truthiness of a `JVal` (`if estimated_cardinality:`). -/
def pyTruthy : JVal → Bool
  | .jstr s => !s.isEmpty
  | .jnull => false
  | .jarr xs => !xs.isEmpty

/-- Python `int(v)` on a `JVal`: parses strings, raises (`none`) on the
other shapes, matching the `except (ValueError, TypeError)` handler. -/
def pyIntJ : JVal → Option Int
  | .jstr s => parsePyInt s
  | _ => none

/-- A plan-node cost as the adapters compute it: either an exact Python
float (`flt`), or the DuckDB synthesis `log10(max(n,1)) * 1000.0` from a
cardinality `n`, kept symbolic as `logCard n`. -/
inductive PCost where
  | flt : PFloat → PCost
  | logCard : Int → PCost
deriving DecidableEq, Repr

/-- The sentinel cost literal `1000.0` used on missing or malformed cost. -/
def sentinelCost : PCost := .flt ⟨1000, 0⟩

/-- The dictionary shape returned by the DuckDB box-drawing-text parser
(`\x7b"Plan": \x7b"Node Type": ..., "Total Cost": ..., "Rows": ...,
"Tables": ..., "explain_text": ...\x7d\x7d`). -/
structure DuckTextPlan where
  node_type_d : LStr
  total_cost_d : PCost
  rows_d : Int
  tables_d : List LStr
  explain_text_d : LStr

/-- Values stored in a node's open `info` map. -/
inductive InfoVal where
  | vstr : LStr → InfoVal
  | vflt : PFloat → InfoVal
  | vint : Int → InfoVal
  | vnull : InfoVal
  | vjson : JVal → InfoVal
  | vextra : List (LStr × JVal) → InfoVal
  | vduck : DuckTextPlan → InfoVal

/-- The per-node record of the canonical plan tree (`plans_lib.Node` minus
its `children` list, which lives in the tree constructor). -/
structure NodeCore where
  node_type : LStr
  cost : PCost
  actual_time_ms : Option PFloat
  table_name : Option LStr
  table_alias : Option LStr
  info : List (LStr × InfoVal)

/-- The canonical plan tree (`plans_lib.Node`): a record plus an ordered
list of children. -/
inductive Node where
  | mk : NodeCore → List Node → Node

def Node.core : Node → NodeCore
  | .mk c _ => c

def Node.children : Node → List Node
  | .mk _ cs => cs

def Node.node_type (n : Node) : LStr := n.core.node_type
def Node.cost (n : Node) : PCost := n.core.cost
def Node.info (n : Node) : List (LStr × InfoVal) := n.core.info
def Node.table_name (n : Node) : Option LStr := n.core.table_name
def Node.table_alias (n : Node) : Option LStr := n.core.table_alias
def Node.actual_time_ms (n : Node) : Option PFloat := n.core.actual_time_ms

/-- Mapping of MySQL operation names to standard node types
(`_map_mysql_operation_to_standard`): lowercase, then an ordered chain of
substring tests, falling back to the stripped original name. -/
def map_mysql_operation_to_standard (operationName : LStr) : LStr :=
  let l := lowerL operationName
  if isSubstr (str "table scan") l then str "Seq Scan"
  else if isSubstr (str "index lookup") l || isSubstr (str "index scan") l then str "Index Scan"
  else if isSubstr (str "nested loop") l then str "Nested Loop"
  else if isSubstr (str "hash join") l then str "Hash Join"
  else if isSubstr (str "inner hash join") l then str "Hash Join"
  else if isSubstr (str "aggregate") l then str "Aggregate"
  else if isSubstr (str "sort") l || isSubstr (str "ordering") l then str "Sort"
  else if isSubstr (str "filter") l then str "Filter"
  else if isSubstr (str "hash") l && !isSubstr (str "join") l then str "Hash"
  else pyStrip operationName

/-- Group 1 of `re.match(r'\s*->\s*([^(]+)', line)` followed by `.strip()`,
with `"Unknown"` when the match fails.  When everything after the arrow up
to an opening parenthesis is whitespace, the greedy `\s*` backtracks one
space so the capture strips to the empty name. -/
def opNameOf (line : LStr) : LStr :=
  match line.dropWhile isPySpace with
  | '-' :: '>' :: rest =>
    let sp := rest.takeWhile isPySpace
    let body := (rest.drop sp.length).takeWhile (fun c => !(c == '('))
    if body.isEmpty then
      if sp.isEmpty then str "Unknown" else []
    else pyStrip body
  | _ => str "Unknown"

/-- Group of `re.search(r'cost=([0-9.e+\-]+)', line)`. -/
def costGroup (line : LStr) : Option LStr :=
  searchKeyRun (str "cost=") isCostChar line

/-- Group of `re.search(r'rows=([0-9.e+\-]+)', line)`. -/
def rowsGroup (line : LStr) : Option LStr :=
  searchKeyRun (str "rows=") isCostChar line

/-- Valid backtracking split of the `([0-9.]+)\.\.([0-9.]+)` tail inside a
maximal `[0-9.]` run: group 1 is `run.take i`, then two dots, then a
nonempty rest of the run. -/
def validSplit (run : LStr) (i : Nat) : Bool :=
  1 ≤ i && run.getD i ' ' == '.' && run.getD (i + 1) ' ' == '.' && i + 2 < run.length

/-- Largest valid split index (the greedy group 1 backtracks from the
longest candidate, so the last valid index wins). -/
def lastDotDot (run : LStr) : Option Nat :=
  (List.range run.length).foldl (fun acc i => if validSplit run i then some i else acc) none

/-- Group 2 of `re.search(r'actual time=([0-9.]+)\.\.([0-9.]+)', line)`. -/
def actualTimeGroup2 : LStr → Option LStr
  | [] => none
  | c :: rest =>
    match dropPre (str "actual time=") (c :: rest) with
    | some after =>
      let run := after.takeWhile isNumDotChar
      match lastDotDot run with
      | some i => some (run.drop (i + 2))
      | none => actualTimeGroup2 rest
    | none => actualTimeGroup2 rest

/-- Rightmost `rows=` followed by at least one digit inside a segment (the
greedy `.*` of `actual.*rows=([0-9]+)` backtracks to the last occurrence);
returns the digit run. -/
def lastRowsDigits (seg : LStr) : Option LStr :=
  go seg none
where
  go : LStr → Option LStr → Option LStr
    | [], acc => acc
    | c :: rest, acc =>
      match dropPre (str "rows=") (c :: rest) with
      | some after =>
        let ds := after.takeWhile Char.isDigit
        if ds.isEmpty then go rest acc else go rest (some ds)
      | none => go rest acc

/-- Group of `re.search(r'actual.*rows=([0-9]+)', line)`: first `actual`
occurrence whose same-line remainder contains `rows=` plus digits. -/
def actualRowsGroup : LStr → Option LStr
  | [] => none
  | c :: rest =>
    match dropPre (str "actual") (c :: rest) with
    | some after =>
      let seg := after.takeWhile (fun ch => !(ch == '\n'))
      match lastRowsDigits seg with
      | some ds => some ds
      | none => actualRowsGroup rest
    | none => actualRowsGroup rest

/-- End test of the lazy capture in `Filter: (.+?)(?:\s+\(cost=|$)`: the
remainder is the string end, a lone trailing newline, or whitespace
followed by `(cost=`. -/
def filterEndCond (rest : LStr) : Bool :=
  rest.isEmpty || rest == ['\n'] ||
  (let sp := rest.takeWhile isPySpace
   !sp.isEmpty && List.isPrefixOf (str "(cost=") (rest.drop sp.length))

/-- Lazy `(.+?)` expansion: the shortest nonempty newline-free prefix whose
remainder satisfies the end test. -/
def lazyDotCapture : LStr → Option LStr
  | [] => none
  | c :: rest =>
    if c == '\n' then none
    else if filterEndCond rest then some [c]
    else (lazyDotCapture rest).map (c :: ·)

/-- Group 1 of `re.search(r'Filter: (.+?)(?:\s+\(cost=|$)', line)`. -/
def filterGroup : LStr → Option LStr
  | [] => none
  | c :: rest =>
    match dropPre (str "Filter: ") (c :: rest) with
    | some after =>
      match lazyDotCapture after with
      | some q => some q
      | none => filterGroup rest
    | none => filterGroup rest

/-- Group of `re.search(r'Table scan on (\w+)', operation_name)`. -/
def tableScanGroup (opName : LStr) : Option LStr :=
  searchKeyRun (str "Table scan on ") isWordChar opName

/-- Groups of `re.search(r'Index lookup on (\w+) using (\w+)',
operation_name)`. -/
def indexLookupGroups : LStr → Option (LStr × LStr)
  | [] => none
  | c :: rest =>
    match dropPre (str "Index lookup on ") (c :: rest) with
    | some after =>
      let w1 := after.takeWhile isWordChar
      if w1.isEmpty then indexLookupGroups rest
      else
        match dropPre (str " using ") (after.drop w1.length) with
        | some after2 =>
          let w2 := after2.takeWhile isWordChar
          if w2.isEmpty then indexLookupGroups rest else some (w1, w2)
        | none => indexLookupGroups rest
    | none => indexLookupGroups rest

/-- The cost extraction of `_parse_mysql_operation_line`: the parsed
`cost=` group, or the 1000.0 sentinel when the group is absent or
`float` raises. -/
def mysqlCostOf (line : LStr) : PCost :=
  match costGroup line with
  | some g =>
    match parsePyFloat g with
    | some v => .flt v
    | none => sentinelCost
  | none => sentinelCost

/-- The optional `estimated_rows` entry of the mysql info map. -/
def mysqlEstRowsInfo (line : LStr) : List (LStr × InfoVal) :=
  match rowsGroup line with
  | some g =>
    match parsePyFloat g with
    | some v => [(str "estimated_rows", .vflt v)]
    | none => []
  | none => []

/-- The optional `actual_rows` entry of the mysql info map. -/
def mysqlActualRowsInfo (line : LStr) : List (LStr × InfoVal) :=
  match actualRowsGroup line with
  | some ds => [(str "actual_rows", .vint (digitsVal ds))]
  | none => []

/-- The optional `filter` entry of the mysql info map. -/
def mysqlFilterInfo (line : LStr) : List (LStr × InfoVal) :=
  match filterGroup line with
  | some f => [(str "filter", .vstr f)]
  | none => []

/-- The `info` map built by `_parse_mysql_operation_line`, in insertion
order: the optional row estimates, the fixed engine echoes, and the
optional filter clause. -/
def mysqlInfoOf (line : LStr) : List (LStr × InfoVal) :=
  mysqlEstRowsInfo line ++ mysqlActualRowsInfo line ++
    [(str "engine", .vstr (str "mysql")),
     (str "mysql_operation", .vstr (opNameOf line)),
     (str "mysql_line", .vstr (pyStrip line))] ++ mysqlFilterInfo line

/-- The table identity extraction of `_parse_mysql_operation_line`: the
`Table scan on` group, overridden by the `Index lookup on` group. -/
def mysqlTableOf (operationName : LStr) : Option LStr :=
  match indexLookupGroups operationName with
  | some gs => some gs.1
  | none => tableScanGroup operationName

/-- The embedded `_parse_mysql_operation_line`: one MySQL text line to one
childless canonical node, extracting operator, cost, row estimates, actual
statistics, table identity and filter exactly as the Python function does. -/
def parse_mysql_operation_line (line : LStr) : Node :=
  Node.mk
    { node_type := map_mysql_operation_to_standard (opNameOf line)
      cost := mysqlCostOf line
      actual_time_ms :=
        match actualTimeGroup2 line with
        | some g => parsePyFloat g
        | none => none
      table_name := mysqlTableOf (opNameOf line)
      table_alias := mysqlTableOf (opNameOf line)
      info := mysqlInfoOf line }
    []

/-- The embedded `_create_fallback_node`, taking the Python `str` of the
dictionary it is handed (always `\x7b\x7d` inside the text-plan parser). -/
def create_fallback_node (jsonDictStr : LStr) : Node :=
  Node.mk
    { node_type := str "MySQL Error"
      cost := .flt ⟨0, 0⟩
      actual_time_ms := none
      table_name := none
      table_alias := none
      info := [(str "database_system", .vstr (str "mysql")),
               (str "error", .vstr jsonDictStr)] }
    []

example :
    (parse_mysql_operation_line (str "-> Table scan on title  (cost=120.5 rows=1000)")).node_type
      = str "Seq Scan" := rfl
example :
    (parse_mysql_operation_line (str "-> Table scan on title  (cost=120.5 rows=1000)")).cost
      = .flt ⟨1205, -1⟩ := rfl
example :
    (parse_mysql_operation_line (str "-> Table scan on title  (cost=120.5 rows=1000)")).table_name
      = some (str "title") := rfl
example :
    (parse_mysql_operation_line (str "    -> Filter: year > 2000  (cost=50.0 rows=10)")).node_type
      = str "Filter" := rfl
example :
    List.lookup (str "filter")
      (parse_mysql_operation_line (str "    -> Filter: year > 2000  (cost=50.0 rows=10)")).info
      = some (.vstr (str "year > 2000")) := rfl

/-- A generic rooted tree used while reconstructing the indented text
plan; payloads keep the indent level so stated invariants can mention it. -/
inductive ITree (α : Type) where
  | node : α → List (ITree α) → ITree α

def ITree.rootLabel {α : Type} : ITree α → α
  | .node a _ => a

def ITree.childrenI {α : Type} : ITree α → List (ITree α)
  | .node _ cs => cs

/-- An open frame of the ancestor stack: the node under construction and
its completed children so far, in chronological order. -/
abbrev BFrame (α : Type) : Type := α × List (ITree α)

/-- Close the top frame into a finished subtree and append it as the last
child of the frame below (the Python `parent.children.append` made visible
when the child can no longer receive children of its own). -/
def closeTop {α : Type} (f1 f2 : BFrame α) : BFrame α :=
  (f2.1, f2.2 ++ [ITree.node f1.1 f1.2])

/-- Pop the `k` topmost frames, folding each into the frame below; the
stack never drops below one frame. -/
def popN {α : Type} : Nat → List (BFrame α) → List (BFrame α)
  | 0, s => s
  | _ + 1, [] => []
  | _ + 1, [f] => [f]
  | k + 1, f1 :: f2 :: rest => popN k (closeTop f1 f2 :: rest)

/-- The `while len(nodes_stack) > n: nodes_stack.pop()` loop. -/
def popTo {α : Type} (n : Nat) (s : List (BFrame α)) : List (BFrame α) :=
  popN (s.length - n) s

/-- One loop iteration of the text-plan parser on a retained line whose
indent level is `item.1`: the first line seeds the stack, later lines pop
the stack down to `indent_level + 1` frames, attach to the node now on
top, and push themselves. -/
def stepB {α : Type} (s : List (BFrame (Nat × α))) (item : Nat × α) :
    List (BFrame (Nat × α)) :=
  match s with
  | [] => [(item, [])]
  | _ :: _ => (item, []) :: popTo (item.1 + 1) s

/-- Fold the frames still open at end of input into the root tree. -/
def collapseStack {α : Type} (s : List (BFrame α)) : Option (ITree α) :=
  match popTo 1 s with
  | [f] => some (ITree.node f.1 f.2)
  | _ => none

/-- Build the indentation tree of a list of (level, payload) items via the
explicit ancestor stack; `none` exactly when no item was retained. -/
def buildStack {α : Type} (items : List (Nat × α)) : Option (ITree (Nat × α)) :=
  collapseStack (items.foldl stepB [])

/-- Indent level of a retained line: the column of the first `->` marker,
integer-divided by the fixed indent width 4. -/
def arrowIndent (line : LStr) : Nat :=
  (findSub (str "->") line).getD 0 / 4

/-- The retained lines of a text plan (those containing the arrow marker;
blank lines cannot contain it) tagged with their indent levels. -/
def mysqlItems (lines : List LStr) : List (Nat × LStr) :=
  (lines.filter (fun l => isSubstr (str "->") l)).map (fun l => (arrowIndent l, l))

mutual
/-- Convert the level-tagged indentation tree into the canonical tree by
parsing each retained line. -/
def treeToNode : ITree (Nat × LStr) → Node
  | .node a cs => Node.mk (parse_mysql_operation_line a.2).core (treeToNodeList cs)
termination_by structural t => t

/-- List counterpart of `treeToNode`. -/
def treeToNodeList : List (ITree (Nat × LStr)) → List Node
  | [] => []
  | c :: cs => treeToNode c :: treeToNodeList cs
termination_by structural l => l
end

/-- The embedded `_parse_mysql_text_plan`: build the indentation tree over
the retained lines, or fall back to the error node when nothing was
retained; the fallback is built from the empty dictionary, whose Python
`str` is `\x7b\x7d`. -/
def parse_mysql_text_plan (lines : List LStr) : Node :=
  match buildStack (mysqlItems lines) with
  | some t => treeToNode t
  | none => create_fallback_node (str "\x7b\x7d")

example :
    (parse_mysql_text_plan
      [str "-> Table scan on title  (cost=120.5 rows=1000)",
       str "    -> Filter: year > 2000  (cost=50.0 rows=10)"]).children.length = 1 := rfl

example :
    (parse_mysql_text_plan [str "", str "hello"]) = create_fallback_node (str "\x7b\x7d") := rfl

/-- Word-boundary test of `\b` at the start of a token: the previous
character (if any) is not a word character while the current one is. -/
def boundaryBefore (prev : Option Char) (c : Char) : Bool :=
  isWordChar c && (match prev with | none => true | some p => !isWordChar p)

/-- Boundary test of `\b` after a word token: the remainder starts with a
non-word character or is empty. -/
def boundaryAfter : LStr → Bool
  | [] => true
  | c :: _ => !isWordChar c

/-- Replace every non-overlapping match found by `m` left to right, as
`re.sub` does; `m` receives the previous character for boundary tests and
returns the consumed length (always positive) plus the replacement text.
The fuel starts at the string length and bounds the number of steps. -/
def subScanF (m : Option Char → LStr → Option (Nat × LStr)) :
    Nat → Option Char → LStr → LStr
  | 0, _, s => s
  | _ + 1, _, [] => []
  | fuel + 1, prev, c :: rest =>
    match m prev (c :: rest) with
    | some nr =>
      nr.2 ++ subScanF m fuel (((c :: rest).take nr.1).getLast?) ((c :: rest).drop nr.1)
    | none => c :: subScanF m fuel (some c) rest

/-- `re.sub` with matcher `m` over a whole string. -/
def subScan (m : Option Char → LStr → Option (Nat × LStr)) (s : LStr) : LStr :=
  subScanF m s.length none s

/-- Matcher of step 1 of the dialect transforms,
`\b(\w+)\s+AS\s+(word)\b` with `re.IGNORECASE`, replaced by
`\1 AS q\2q` for the engine quote character `q`.  Every component is
deterministic: the greedy `\w+`/`\s+` runs are maximal and cannot
backtrack into the disjoint literal that follows. -/
def tryAsAlias (w : LStr) (q : Char) (prev : Option Char) (s : LStr) :
    Option (Nat × LStr) :=
  match s with
  | [] => none
  | c :: _ =>
    if boundaryBefore prev c then
      let g1 := s.takeWhile isWordChar
      let s1 := s.drop g1.length
      let ws1 := s1.takeWhile isPySpace
      if ws1.isEmpty then none
      else
        match matchCI (str "as") (s1.drop ws1.length) with
        | some asr =>
          let ws2 := asr.2.takeWhile isPySpace
          if ws2.isEmpty then none
          else
            match matchCI w (asr.2.drop ws2.length) with
            | some wr =>
              if boundaryAfter wr.2 then
                some (g1.length + ws1.length + 2 + ws2.length + w.length,
                  g1 ++ str " AS " ++ (q :: wr.1) ++ [q])
              else none
            | none => none
        | none => none
    else none

/-- Matcher of step 2 of the dialect transforms,
`\b(word)(\s*\.\s*\w+)` with `re.IGNORECASE`, replaced by `q\1q\2`. -/
def tryDotRef (w : LStr) (q : Char) (prev : Option Char) (s : LStr) :
    Option (Nat × LStr) :=
  match s with
  | [] => none
  | c :: _ =>
    if boundaryBefore prev c then
      match matchCI w s with
      | some wr =>
        let sp1 := wr.2.takeWhile isPySpace
        match wr.2.drop sp1.length with
        | '.' :: t2 =>
          let sp2 := t2.takeWhile isPySpace
          let g2w := (t2.drop sp2.length).takeWhile isWordChar
          if g2w.isEmpty then none
          else
            some (w.length + sp1.length + 1 + sp2.length + g2w.length,
              (q :: wr.1) ++ [q] ++ sp1 ++ ['.'] ++ sp2 ++ g2w)
        | _ => none
      | none => none
    else none

/-- Matcher of step 3 of the mysql transform, `\bAS\s+(word)\b` with
`re.IGNORECASE`, replaced by `AS q\1q`. -/
def tryAsSelect (w : LStr) (q : Char) (prev : Option Char) (s : LStr) :
    Option (Nat × LStr) :=
  match s with
  | [] => none
  | c :: _ =>
    if boundaryBefore prev c then
      match matchCI (str "as") s with
      | some asr =>
        let ws := asr.2.takeWhile isPySpace
        if ws.isEmpty then none
        else
          match matchCI w (asr.2.drop ws.length) with
          | some wr =>
            if boundaryAfter wr.2 then
              some (2 + ws.length + w.length, str "AS " ++ (q :: wr.1) ++ [q])
            else none
          | none => none
      | none => none
    else none

/-- The backtick quoting character MySQL uses. -/
def btChar : Char := Char.ofNat 96

/-- Reserved words the mysql transform quotes. -/
def reservedMysql : List LStr :=
  [str "at", str "to", str "as", str "or", str "and", str "not",
   str "in", str "on", str "order", str "group", str "character"]

/-- Reserved words the duckdb transform quotes. -/
def reservedDuck : List LStr :=
  [str "at", str "to", str "as", str "or", str "and", str "not",
   str "in", str "on"]

/-- The embedded `_transform_sql_for_mysql`: three substitution passes per
reserved word, in the fixed order of the source. -/
def transform_sql_for_mysql (sql : LStr) : LStr :=
  let t1 := reservedMysql.foldl (fun acc w => subScan (tryAsAlias w btChar) acc) sql
  let t2 := reservedMysql.foldl (fun acc w => subScan (tryDotRef w btChar) acc) t1
  reservedMysql.foldl (fun acc w => subScan (tryAsSelect w btChar) acc) t2

/-- The embedded `_transform_sql_for_duckdb`: two substitution passes per
reserved word with double-quote quoting. -/
def transform_sql_for_duckdb (sql : LStr) : LStr :=
  let t1 := reservedDuck.foldl (fun acc w => subScan (tryAsAlias w '"') acc) sql
  reservedDuck.foldl (fun acc w => subScan (tryDotRef w '"') acc) t1

/-- A DuckDB JSON plan node: the optional `name` and `extra_info` fields
(read with defaults `"Unknown"` and the empty map) and the `children`
array (read with default `[]`). -/
inductive JPlan where
  | mk : Option LStr → Option (List (LStr × JVal)) → List JPlan → JPlan

def JPlan.nameJ : JPlan → Option LStr
  | .mk nm _ _ => nm

def JPlan.extraJ : JPlan → Option (List (LStr × JVal))
  | .mk _ ei _ => ei

def JPlan.childrenJ : JPlan → List JPlan
  | .mk _ _ cs => cs

/-- Textual content of a `JVal` stored into the string-typed `table_name`
slot (DuckDB reports table names as JSON strings; other shapes stand in by
their textual form). -/
def jvalAsStr : JVal → LStr
  | .jstr s => s
  | v => pyStrJ v

/-- The cost extraction of `_parse_duckdb_json_plan`: the log-scale
synthesis from a truthy, parsable `Estimated Cardinality`, or the 1000.0
sentinel when the field is absent, falsy, or `int` raises. -/
def duckCostOf (extra_info : List (LStr × JVal)) : PCost :=
  match List.lookup (str "Estimated Cardinality") extra_info with
  | some v =>
    if pyTruthy v then
      match pyIntJ v with
      | some n => .logCard n
      | none => sentinelCost
    else sentinelCost
  | none => sentinelCost

/-- The table identity extraction of `_parse_duckdb_json_plan`: set
exactly when `Table` is present in `extra_info`. -/
def duckTableOf (extra_info : List (LStr × JVal)) : Option LStr :=
  match List.lookup (str "Table") extra_info with
  | some v => some (jvalAsStr v)
  | none => none

/-- The optional `filter` entry of the duckdb info map, coerced to text
(or kept as a null) as the adapter does. -/
def duckFilterInfo (extra_info : List (LStr × JVal)) : List (LStr × InfoVal) :=
  match List.lookup (str "Filters") extra_info with
  | some .jnull => [(str "filter", .vnull)]
  | some v => [(str "filter", .vstr (pyStrJ v))]
  | none => []

/-- The optional `join_type` entry of the duckdb info map. -/
def duckJoinTypeInfo (extra_info : List (LStr × JVal)) : List (LStr × InfoVal) :=
  match List.lookup (str "Join Type") extra_info with
  | some v => [(str "join_type", .vjson v)]
  | none => []

/-- The optional `join_conditions` entry of the duckdb info map. -/
def duckJoinCondInfo (extra_info : List (LStr × JVal)) : List (LStr × InfoVal) :=
  match List.lookup (str "Conditions") extra_info with
  | some v => [(str "join_conditions", .vjson v)]
  | none => []

/-- The `info` map built by `_parse_duckdb_json_plan`, in insertion order:
the raw `extra_info` echo, the engine tag, and the optional filter and
join fields. -/
def duckInfoOf (extra_info : List (LStr × JVal)) : List (LStr × InfoVal) :=
  [(str "duckdb_extra", .vextra extra_info),
   (str "database_system", .vstr (str "duckdb"))] ++
    duckFilterInfo extra_info ++ duckJoinTypeInfo extra_info ++
    duckJoinCondInfo extra_info

mutual
/-- The embedded `_parse_duckdb_json_plan`: operator name taken verbatim,
cardinality-synthesised cost with the 1000.0 sentinel on a missing, falsy
or unparsable `Estimated Cardinality`, table identity from `Table`,
filter/join extras, and a recursive walk of `children` in order. -/
def parse_duckdb_json_plan : JPlan → Node
  | .mk nm ei cs =>
    let extra_info := ei.getD []
    Node.mk
      { node_type := nm.getD (str "Unknown")
        cost := duckCostOf extra_info
        actual_time_ms := none
        table_name := duckTableOf extra_info
        table_alias := duckTableOf extra_info
        info := duckInfoOf extra_info }
      (parse_duckdb_json_plan_list cs)
termination_by structural p => p

/-- List counterpart of `parse_duckdb_json_plan`, preserving order. -/
def parse_duckdb_json_plan_list : List JPlan → List Node
  | [] => []
  | c :: cs => parse_duckdb_json_plan c :: parse_duckdb_json_plan_list cs
termination_by structural l => l
end

/-- The embedded `ParseDuckDBPlanJson` applied to the fixed dictionary
shape that `_parse_duckdb_text_explain` returns: a single childless node
copying the node type and cost and echoing the raw payload. -/
def ParseDuckDBPlanJson (d : DuckTextPlan) : Node :=
  Node.mk
    { node_type := d.node_type_d
      cost := d.total_cost_d
      actual_time_ms := none
      table_name := none
      table_alias := none
      info := [(str "explain_json", .vduck d),
               (str "database_system", .vstr (str "duckdb")),
               (str "explain_text", .vstr d.explain_text_d)] }
    []

/-- Box-drawing characters stripped by the text explain parser. -/
def isBoxChar (c : Char) : Bool :=
  c == '│' || c == '└' || c == '┬' || c == '┘' || c == '┌' || c == '┐' ||
  c == '├' || c == '─' || c == '┤' || c == '┴' || c == '┼'

/-- Python `s.split('\n')`. -/
def splitOnNl : LStr → List LStr
  | [] => [[]]
  | c :: rest =>
    if c == '\n' then [] :: splitOnNl rest
    else
      match splitOnNl rest with
      | h :: t => (c :: h) :: t
      | [] => [[c]]

/-- Group of `re.search(r'~([\d,]+)\s+[Rr]ows', line)`: a `~`, a nonempty
digit-or-comma run, whitespace, then `Rows`/`rows`. -/
def tildeRowsGroup : LStr → Option LStr
  | [] => none
  | c :: rest =>
    if c == '~' then
      let run := rest.takeWhile isDigitComma
      if run.isEmpty then tildeRowsGroup rest
      else
        let ws := (rest.drop run.length).takeWhile isPySpace
        if ws.isEmpty then tildeRowsGroup rest
        else
          match rest.drop (run.length + ws.length) with
          | r0 :: o :: w :: s :: _ =>
            if (r0 == 'R' || r0 == 'r') && o == 'o' && w == 'w' && s == 's' then
              some run
            else tildeRowsGroup rest
          | _ => tildeRowsGroup rest
    else tildeRowsGroup rest

/-- Group of `re.search(r'Table:\s+(\w+)', line)`. -/
def tableColonGroup : LStr → Option LStr
  | [] => none
  | c :: rest =>
    match dropPre (str "Table:") (c :: rest) with
    | some after =>
      let ws := after.takeWhile isPySpace
      if ws.isEmpty then tableColonGroup rest
      else
        let word := (after.drop ws.length).takeWhile isWordChar
        if word.isEmpty then tableColonGroup rest else some word
    | none => tableColonGroup rest

/-- The operation keywords the text explain parser looks for, in priority
order: main operations, then scans, then detail markers. -/
def duckMainOps : List LStr :=
  [str "HASH_JOIN", str "NESTED_LOOP", str "UNGROUPED_AGGREGATE",
   str "AGGREGATE", str "SORT"]

def duckScanOps : List LStr :=
  [str "SEQ_SCAN", str "INDEX_SCAN"]

def duckDetailOps : List LStr :=
  [str "FILTER", str "Filters:"]

/-- Fold state of the text explain parser. -/
structure DuckTextState where
  node_type_s : LStr
  total_cost_s : PCost
  rows_s : Int
  tables_s : List LStr

/-- One line of the `_parse_duckdb_text_explain` loop: strip, remove box
characters, detect an operation header by priority, update the row
estimate and its log-scale cost when `~N rows` parses, and collect
`Table:` names. -/
def duckTextLine (st : DuckTextState) (rawLine : LStr) : DuckTextState :=
  let line := pyStrip rawLine
  let clean := pyStrip (line.filter (fun c => !isBoxChar c))
  let upper := upperL clean
  let shortEnough := decide (clean.length < 50)
  let nt1 :=
    if (duckMainOps.any (fun op => isSubstr op upper)) && shortEnough then clean
    else if (duckScanOps.any (fun op => isSubstr op upper)) && shortEnough then clean
    else if st.node_type_s == str "DuckDB Plan" &&
        (duckDetailOps.any (fun op => isSubstr op clean)) && shortEnough then clean
    else st.node_type_s
  let rowsCost : Int × PCost :=
    match tildeRowsGroup line with
    | some run =>
      match parsePyInt (run.filter (fun c => !(c == ','))) with
      | some n => (n, .logCard n)
      | none => (st.rows_s, st.total_cost_s)
    | none => (st.rows_s, st.total_cost_s)
  let tables :=
    match tableColonGroup line with
    | some t => st.tables_s ++ [t]
    | none => st.tables_s
  { node_type_s := nt1
    total_cost_s := rowsCost.2
    rows_s := rowsCost.1
    tables_s := tables }

/-- Comma-join of the first three table names, as the synthesised join
label renders them. -/
def joinComma : List LStr → LStr
  | [] => []
  | [t] => t
  | t :: u :: r => t ++ str ", " ++ joinComma (u :: r)

/-- The embedded `_parse_duckdb_text_explain`: fold the split lines through
`duckTextLine` from the documented defaults and synthesise a label from
collected table names when no operation header was found. -/
def parse_duckdb_text_explain (explainText : LStr) : DuckTextPlan :=
  let st0 : DuckTextState :=
    { node_type_s := str "DuckDB Plan"
      total_cost_s := sentinelCost
      rows_s := 1000
      tables_s := [] }
  let st := (splitOnNl explainText).foldl duckTextLine st0
  let finalType :=
    if st.node_type_s == str "DuckDB Plan" && !st.tables_s.isEmpty then
      match st.tables_s with
      | [t] => str "Scan " ++ t
      | ts => str "Join (" ++ joinComma (ts.take 3) ++ str ")"
    else st.node_type_s
  { node_type_d := finalType
    total_cost_d := st.total_cost_s
    rows_d := st.rows_s
    tables_d := st.tables_s
    explain_text_d := explainText }

/-- Python string comparison (code-point lexicographic), as `sorted` uses. -/
def lexLe : LStr → LStr → Bool
  | [], _ => true
  | _ :: _, [] => false
  | a :: as, b :: bs =>
    if a.toNat < b.toNat then true
    else if b.toNat < a.toNat then false
    else lexLe as bs

/-- Insert into a sorted list (the elementary step of `sorted`). -/
def ordInsert (x : LStr) : List LStr → List LStr
  | [] => [x]
  | y :: ys => if lexLe x y then x :: y :: ys else y :: ordInsert x ys

/-- Python `sorted(list(l))` on strings. -/
def pySorted (l : List LStr) : List (LStr) :=
  l.foldr ordInsert []

/-- Python `sorted(list(set(l)))` on strings. -/
def pySortedSet (l : List LStr) : List LStr :=
  pySorted l.dedup

mutual
/-- Operator labels the `WorkloadInfo` constructor adds to `scan_types`: a
visited node contributes its label exactly when the label contains the
case-sensitive substring `Scan`. -/
def collectScanTypes : Node → List LStr
  | .mk core cs =>
    (if isSubstr (str "Scan") core.node_type then [core.node_type] else []) ++
      collectScanTypesList cs
termination_by structural n => n

/-- Forest counterpart of `collectScanTypes`. -/
def collectScanTypesList : List Node → List LStr
  | [] => []
  | n :: ns => collectScanTypes n ++ collectScanTypesList ns
termination_by structural l => l
end

mutual
/-- Operator labels the constructor adds to `join_types`: nodes that are
not scans and satisfy `IsJoin`.  `Node.IsJoin` lives in `sql_parse/ast.py`,
which is not among the provided sources, so it is abstracted as the
parameter `isJoinB`; no claim depends on it. -/
def collectJoinTypes (isJoinB : LStr → Bool) : Node → List LStr
  | .mk core cs =>
    (if !isSubstr (str "Scan") core.node_type && isJoinB core.node_type then
      [core.node_type] else []) ++
      collectJoinTypesList isJoinB cs
termination_by structural n => n

/-- Forest counterpart of `collectJoinTypes`. -/
def collectJoinTypesList (isJoinB : LStr → Bool) : List Node → List LStr
  | [] => []
  | n :: ns => collectJoinTypes isJoinB n ++ collectJoinTypesList isJoinB ns
termination_by structural l => l
end

mutual
/-- Every visited operator label (`all_ops.add(node.node_type)`). -/
def collectAllOps : Node → List LStr
  | .mk core cs => core.node_type :: collectAllOpsList cs
termination_by structural n => n

/-- Forest counterpart of `collectAllOps`. -/
def collectAllOpsList : List Node → List LStr
  | [] => []
  | n :: ns => collectAllOps n ++ collectAllOpsList ns
termination_by structural l => l
end

/-- The operator-label part of `WorkloadInfo` (its relation-name, table-id
and attribute fields are untouched by every claim and by
`SetPhysicalOps`, and are omitted). -/
structure WorkloadInfo where
  scan_types : List LStr
  join_types : List LStr
  all_ops : List LStr

/-- The label fields of `WorkloadInfo.__init__` run over a list of root
nodes: each set is collected over every visited node and then sorted and
deduplicated as `np.asarray(sorted(list(...)))` over a Python set does. -/
def WorkloadInfo.ofNodes (isJoinB : LStr → Bool) (nodes : List Node) : WorkloadInfo :=
  { scan_types := pySortedSet (collectScanTypesList nodes)
    join_types := pySortedSet (collectJoinTypesList isJoinB nodes)
    all_ops := pySortedSet (collectAllOpsList nodes) }

/-- The embedded `WorkloadInfo.SetPhysicalOps`: override the scan and join
label sets when given, and rebuild `all_ops` from the survivors of the old
`all_ops` plus the new scan and join labels, sorted without duplicates. -/
def WorkloadInfo.SetPhysicalOps (w : WorkloadInfo)
    (join_ops scan_ops : Option (List LStr)) : WorkloadInfo :=
  let old_scans := w.scan_types
  let old_joins := w.join_types
  let new_scans := match scan_ops with
    | some l => pySorted l
    | none => w.scan_types
  let new_joins := match join_ops with
    | some l => pySorted l
    | none => w.join_types
  let new_all_ops :=
    (w.all_ops.filter (fun op => decide (op ∉ old_scans ∧ op ∉ old_joins))) ++
      new_scans ++ new_joins
  { scan_types := new_scans
    join_types := new_joins
    all_ops := pySortedSet new_all_ops }

example :
    (parse_duckdb_json_plan
      (.mk (some (str "HASH_JOIN")) (some [(str "Join Type", .jstr (str "INNER"))])
        [.mk (some (str "SEQ_SCAN")) (some [(str "Table", .jstr (str "t"))]) [],
         .mk (some (str "SEQ_SCAN")) (some [(str "Table", .jstr (str "s"))]) []])).node_type
      = str "HASH_JOIN" := rfl

example :
    ((parse_duckdb_json_plan
      (.mk (some (str "HASH_JOIN")) (some [(str "Join Type", .jstr (str "INNER"))])
        [.mk (some (str "SEQ_SCAN")) (some [(str "Table", .jstr (str "t"))]) [],
         .mk (some (str "SEQ_SCAN")) (some [(str "Table", .jstr (str "s"))]) []])).children.map
      Node.table_name) = [some (str "t"), some (str "s")] := rfl

mutual
/-- Total number of nodes of a canonical tree. -/
def nodeCount : Node → Nat
  | .mk _ cs => 1 + nodeCountList cs
termination_by structural n => n

/-- Total number of nodes of a forest. -/
def nodeCountList : List Node → Nat
  | [] => 0
  | n :: ns => nodeCount n + nodeCountList ns
termination_by structural l => l
end

mutual
/-- Root-to-leaf depth of a canonical tree (a leaf has depth 1). -/
def nodeDepth : Node → Nat
  | .mk _ cs => 1 + nodeDepthList cs
termination_by structural n => n

/-- Maximal depth over a forest. -/
def nodeDepthList : List Node → Nat
  | [] => 0
  | n :: ns => max (nodeDepth n) (nodeDepthList ns)
termination_by structural l => l
end

mutual
/-- Total number of nodes of a JSON payload. -/
def jCount : JPlan → Nat
  | .mk _ _ cs => 1 + jCountList cs
termination_by structural p => p

/-- Total number of nodes of a JSON forest. -/
def jCountList : List JPlan → Nat
  | [] => 0
  | p :: ps => jCount p + jCountList ps
termination_by structural l => l
end

mutual
/-- Nesting depth of a JSON payload. -/
def jDepth : JPlan → Nat
  | .mk _ _ cs => 1 + jDepthList cs
termination_by structural p => p

/-- Maximal nesting depth over a JSON forest. -/
def jDepthList : List JPlan → Nat
  | [] => 0
  | p :: ps => max (jDepth p) (jDepthList ps)
termination_by structural l => l
end

/-- Total number of nested child nodes of a JSON payload (all nodes except
the root). -/
def jChildTotal (p : JPlan) : Nat := jCountList p.childrenJ

/-- Structural induction over `JPlan` with a membership hypothesis for the
children. -/
theorem jplan_ind {P : JPlan → Prop}
    (h : ∀ nm ei cs, (∀ c ∈ cs, P c) → P (.mk nm ei cs)) : ∀ p, P p := by
  intro p
  refine @JPlan.rec (fun p => P p) (fun l => ∀ c ∈ l, P c)
    (fun nm ei cs ih => h nm ei cs ih) ?_ ?_ p
  · intro c hc
    exact absurd hc (List.not_mem_nil c)
  · intro hd tl ih1 ih2 c hc
    rcases List.mem_cons.mp hc with h1 | h2
    · exact h1 ▸ ih1
    · exact ih2 c h2

/-- Structural induction over `Node` with a membership hypothesis for the
children. -/
theorem node_ind {P : Node → Prop}
    (h : ∀ core cs, (∀ c ∈ cs, P c) → P (.mk core cs)) : ∀ n, P n := by
  intro n
  refine @Node.rec (fun n => P n) (fun l => ∀ c ∈ l, P c)
    (fun core cs ih => h core cs ih) ?_ ?_ n
  · intro c hc
    exact absurd hc (List.not_mem_nil c)
  · intro hd tl ih1 ih2 c hc
    rcases List.mem_cons.mp hc with h1 | h2
    · exact h1 ▸ ih1
    · exact ih2 c h2

theorem parse_duckdb_list_eq_map (cs : List JPlan) :
    parse_duckdb_json_plan_list cs = cs.map parse_duckdb_json_plan := by
  induction cs with
  | nil => rfl
  | cons c rest ih => simp [parse_duckdb_json_plan_list, ih]

theorem nodeCountList_map_parse (cs : List JPlan)
    (ih : ∀ c ∈ cs, nodeCount (parse_duckdb_json_plan c) = jCount c) :
    nodeCountList (cs.map parse_duckdb_json_plan) = jCountList cs := by
  induction cs with
  | nil => rfl
  | cons c rest ihl =>
    simp only [List.map_cons, nodeCountList, jCountList]
    rw [ih c (List.mem_cons_self c rest),
      ihl (fun d hd => ih d (List.mem_cons_of_mem c hd))]

theorem nodeDepthList_map_parse (cs : List JPlan)
    (ih : ∀ c ∈ cs, nodeDepth (parse_duckdb_json_plan c) = jDepth c) :
    nodeDepthList (cs.map parse_duckdb_json_plan) = jDepthList cs := by
  induction cs with
  | nil => rfl
  | cons c rest ihl =>
    simp only [List.map_cons, nodeDepthList, jDepthList]
    rw [ih c (List.mem_cons_self c rest),
      ihl (fun d hd => ih d (List.mem_cons_of_mem c hd))]

theorem nodeCount_parse_duckdb (p : JPlan) :
    nodeCount (parse_duckdb_json_plan p) = jCount p := by
  induction p using jplan_ind with
  | h nm ei cs ih =>
    simp only [parse_duckdb_json_plan, nodeCount, jCount]
    rw [parse_duckdb_list_eq_map, nodeCountList_map_parse cs ih]

theorem nodeDepth_parse_duckdb (p : JPlan) :
    nodeDepth (parse_duckdb_json_plan p) = jDepth p := by
  induction p using jplan_ind with
  | h nm ei cs ih =>
    simp only [parse_duckdb_json_plan, nodeDepth, jDepth]
    rw [parse_duckdb_list_eq_map, nodeDepthList_map_parse cs ih]

theorem jCount_eq_childTotal (p : JPlan) : jCount p = jChildTotal p + 1 := by
  cases p with
  | mk nm ei cs => simp [jCount, jChildTotal, JPlan.childrenJ, Nat.add_comm]

/-- C1: on the literal two-line indented-text payload
`-> Table scan on title (cost=120.5 rows=1000)` /
`    -> Filter: year > 2000 (cost=50.0 rows=10)`, the indented-text
adapter returns a root whose operator is the SeqScan canonical label
`Seq Scan`, with `table_name` `title` and cost `120.5`, having exactly one
child whose operator is the Filter canonical label with cost `50.0` and
`info.filter` equal to `year > 2000`. -/
theorem c1_indented_text_round_trip :
    (parse_mysql_text_plan
      [str "-> Table scan on title (cost=120.5 rows=1000)",
       str "    -> Filter: year > 2000 (cost=50.0 rows=10)"]).node_type
        = str "Seq Scan" ∧
    (parse_mysql_text_plan
      [str "-> Table scan on title (cost=120.5 rows=1000)",
       str "    -> Filter: year > 2000 (cost=50.0 rows=10)"]).table_name
        = some (str "title") ∧
    (parse_mysql_text_plan
      [str "-> Table scan on title (cost=120.5 rows=1000)",
       str "    -> Filter: year > 2000 (cost=50.0 rows=10)"]).cost
        = .flt ⟨1205, -1⟩ ∧
    PFloat.toRat ⟨1205, -1⟩ = 120.5 ∧
    ((parse_mysql_text_plan
      [str "-> Table scan on title (cost=120.5 rows=1000)",
       str "    -> Filter: year > 2000 (cost=50.0 rows=10)"]).children.map
        Node.node_type) = [str "Filter"] ∧
    ((parse_mysql_text_plan
      [str "-> Table scan on title (cost=120.5 rows=1000)",
       str "    -> Filter: year > 2000 (cost=50.0 rows=10)"]).children.map
        Node.cost) = [.flt ⟨500, -1⟩] ∧
    PFloat.toRat ⟨500, -1⟩ = 50 ∧
    ((parse_mysql_text_plan
      [str "-> Table scan on title (cost=120.5 rows=1000)",
       str "    -> Filter: year > 2000 (cost=50.0 rows=10)"]).children.map
        (fun c => List.lookup (str "filter") c.info))
      = [some (.vstr (str "year > 2000"))] :=
  ⟨rfl, rfl, rfl, by norm_num [PFloat.toRat], rfl, rfl,
    by norm_num [PFloat.toRat], rfl⟩

/-- The literal JSON payload of C2: a `HASH_JOIN` with an `INNER` join
type over two `SEQ_SCAN` children on tables `t` and `s`. -/
def c2Payload : JPlan :=
  .mk (some (str "HASH_JOIN")) (some [(str "Join Type", .jstr (str "INNER"))])
    [.mk (some (str "SEQ_SCAN")) (some [(str "Table", .jstr (str "t"))]) [],
     .mk (some (str "SEQ_SCAN")) (some [(str "Table", .jstr (str "s"))]) []]

/-- C2 counterexample: the JSON adapter does not classify the display name
through the taxonomy; on the literal payload the root operator is the raw
`HASH_JOIN`, which differs from the canonical HashJoin label `Hash Join`
the taxonomy of this repository produces (and even that taxonomy maps
`HASH_JOIN` to itself, since the underscore defeats its `hash join`
substring test). -/
theorem c2_counterexample :
    (parse_duckdb_json_plan c2Payload).node_type = str "HASH_JOIN" ∧
    (parse_duckdb_json_plan c2Payload).node_type ≠ str "Hash Join" ∧
    map_mysql_operation_to_standard (str "HASH_JOIN") = str "HASH_JOIN" :=
  ⟨rfl, by decide, rfl⟩

/-- C2 amended: on the literal JSON payload the adapter produces a root
whose operator is the display name `HASH_JOIN` stored verbatim (no
taxonomy classification), with exactly two children in payload order, each
with operator `SEQ_SCAN` stored verbatim, whose `table_name` values are
`t` and `s` respectively. -/
theorem c2_amended_verbatim_operators :
    (parse_duckdb_json_plan c2Payload).node_type = str "HASH_JOIN" ∧
    ((parse_duckdb_json_plan c2Payload).children.map Node.node_type)
      = [str "SEQ_SCAN", str "SEQ_SCAN"] ∧
    ((parse_duckdb_json_plan c2Payload).children.map Node.table_name)
      = [some (str "t"), some (str "s")] :=
  ⟨rfl, rfl, rfl⟩

/-- C6: for every JSON payload with `N` nested child nodes in total, the
tree returned by the JSON adapter has exactly `N + 1` nodes, its depth
equals the nesting depth of the payload, and each node's children appear
in the payload's reported order. -/
theorem c6_json_tree_shape (p : JPlan) :
    nodeCount (parse_duckdb_json_plan p) = jChildTotal p + 1 ∧
    nodeDepth (parse_duckdb_json_plan p) = jDepth p ∧
    (parse_duckdb_json_plan p).children
      = p.childrenJ.map parse_duckdb_json_plan := by
  refine ⟨?_, nodeDepth_parse_duckdb p, ?_⟩
  · rw [nodeCount_parse_duckdb, jCount_eq_childTotal]
  · cases p with
    | mk nm ei cs =>
      simp [parse_duckdb_json_plan, Node.children, JPlan.childrenJ,
        parse_duckdb_list_eq_map]

/-- C7: every payload in which no line contains the `->` marker (including
the empty payload and payloads of blank or decoration lines) yields the
single fallback error node: no children, the `MySQL Error` operator label,
cost `0.0`, and the failure information under `info.error`. -/
theorem c7_marker_free_fallback (lines : List LStr)
    (h : ∀ l ∈ lines, isSubstr (str "->") l = false) :
    parse_mysql_text_plan lines = create_fallback_node (str "\x7b\x7d") ∧
    (parse_mysql_text_plan lines).children = [] ∧
    (parse_mysql_text_plan lines).node_type = str "MySQL Error" ∧
    (parse_mysql_text_plan lines).cost = .flt ⟨0, 0⟩ ∧
    List.lookup (str "error") (parse_mysql_text_plan lines).info
      = some (.vstr (str "\x7b\x7d")) := by
  have hitems : mysqlItems lines = [] := by
    unfold mysqlItems
    rw [List.filter_eq_nil_iff.mpr]
    · rfl
    · intro a ha
      simp [h a ha]
  have hmain : parse_mysql_text_plan lines = create_fallback_node (str "\x7b\x7d") := by
    unfold parse_mysql_text_plan
    rw [hitems]
    rfl
  refine ⟨hmain, ?_, ?_, ?_, ?_⟩ <;> rw [hmain] <;> rfl

/-- C7 witness: a concrete payload of a blank line and a decoration-only
line produces the fallback error node. -/
theorem c7_marker_free_fallback_witness :
    parse_mysql_text_plan [str "", str "hello"]
      = create_fallback_node (str "\x7b\x7d") :=
  (c7_marker_free_fallback [str "", str "hello"] (by decide)).1

/-- C8: for every text payload, the box-drawing-text adapter (the text
explain parser composed with `ParseDuckDBPlanJson`, exactly as the fallback
path of `SqlToPlanNode` composes them) yields exactly one node with an
empty children sequence, however many operators or tables appear. -/
theorem c8_box_drawing_single_flat_node (explainText : LStr) :
    nodeCount (ParseDuckDBPlanJson (parse_duckdb_text_explain explainText)) = 1 ∧
    (ParseDuckDBPlanJson (parse_duckdb_text_explain explainText)).children = [] :=
  ⟨rfl, rfl⟩

/-- The spec's dialect example input. -/
def sqlExample : LStr := str "SELECT x FROM foo AS at WHERE at.y = 1"

/-- C4 counterexample: neither dialect transform is idempotent on every
input.  On `at.at.x` the first pass consumes `at.at` as one match of the
dotted-reference pattern, hiding the second `at`; the second pass then
quotes it too, so applying the transform twice differs from applying it
once. -/
theorem c4_counterexample :
    transform_sql_for_mysql (transform_sql_for_mysql (str "at.at.x"))
      ≠ transform_sql_for_mysql (str "at.at.x") ∧
    transform_sql_for_duckdb (transform_sql_for_duckdb (str "at.at.x"))
      ≠ transform_sql_for_duckdb (str "at.at.x") := by
  have h1 : transform_sql_for_mysql (str "at.at.x") = str "`at`.at.x" := rfl
  have h2 : transform_sql_for_mysql (str "`at`.at.x") = str "`at`.`at`.x" := rfl
  have h3 : transform_sql_for_duckdb (str "at.at.x") = str "\"at\".at.x" := rfl
  have h4 : transform_sql_for_duckdb (str "\"at\".at.x") = str "\"at\".\"at\".x" := rfl
  rw [h1, h2, h3, h4]
  exact ⟨by decide, by decide⟩

/-- C4 amended: the transforms are not idempotent on every input (a chain
of dotted reserved-word references such as `at.at.x` gains a further quote
on a second pass), but already-quoted tokens indeed no longer match: on
inputs whose reserved-word occurrences do not overlap, such as the spec's
dialect example, one application reaches a fixpoint of both transforms. -/
theorem c4_amended_fixpoint_on_example :
    transform_sql_for_mysql sqlExample
      = str "SELECT x FROM foo AS `at` WHERE `at`.y = 1" ∧
    transform_sql_for_mysql (transform_sql_for_mysql sqlExample)
      = transform_sql_for_mysql sqlExample ∧
    transform_sql_for_duckdb sqlExample
      = str "SELECT x FROM foo AS \"at\" WHERE \"at\".y = 1" ∧
    transform_sql_for_duckdb (transform_sql_for_duckdb sqlExample)
      = transform_sql_for_duckdb sqlExample :=
  ⟨rfl, rfl, rfl, rfl⟩

theorem lookup_append_none {β : Type} (k : LStr) (l1 l2 : List (LStr × β))
    (h1 : List.lookup k l1 = none) (h2 : List.lookup k l2 = none) :
    List.lookup k (l1 ++ l2) = none := by
  induction l1 with
  | nil => rw [List.nil_append]; exact h2
  | cons p rest ih =>
    cases p with
    | mk a b =>
      rw [List.cons_append]
      cases hk : (k == a) with
      | true => simp [List.lookup, hk] at h1
      | false =>
        simp only [List.lookup, hk] at h1 ⊢
        exact ih h1

theorem rawcost_not_in_mysqlEstRows (line : LStr) :
    List.lookup (str "raw_cost") (mysqlEstRowsInfo line) = none := by
  unfold mysqlEstRowsInfo
  cases rowsGroup line with
  | none => rfl
  | some g =>
    dsimp only
    cases parsePyFloat g with
    | none => rfl
    | some v => rfl

theorem rawcost_not_in_mysqlActualRows (line : LStr) :
    List.lookup (str "raw_cost") (mysqlActualRowsInfo line) = none := by
  unfold mysqlActualRowsInfo
  cases actualRowsGroup line with
  | none => rfl
  | some ds => rfl

theorem rawcost_not_in_mysqlFilter (line : LStr) :
    List.lookup (str "raw_cost") (mysqlFilterInfo line) = none := by
  unfold mysqlFilterInfo
  cases filterGroup line with
  | none => rfl
  | some f => rfl

theorem rawcost_not_in_mysqlInfo (line : LStr) :
    List.lookup (str "raw_cost") (mysqlInfoOf line) = none := by
  unfold mysqlInfoOf
  refine lookup_append_none _ _ _ ?_ (rawcost_not_in_mysqlFilter line)
  refine lookup_append_none _ _ _ ?_ rfl
  exact lookup_append_none _ _ _ (rawcost_not_in_mysqlEstRows line)
    (rawcost_not_in_mysqlActualRows line)

theorem rawcost_not_in_duckFilter (extra_info : List (LStr × JVal)) :
    List.lookup (str "raw_cost") (duckFilterInfo extra_info) = none := by
  unfold duckFilterInfo
  cases List.lookup (str "Filters") extra_info with
  | none => rfl
  | some v => cases v with
    | jnull => rfl
    | jstr s => rfl
    | jarr xs => rfl

theorem rawcost_not_in_duckJoinType (extra_info : List (LStr × JVal)) :
    List.lookup (str "raw_cost") (duckJoinTypeInfo extra_info) = none := by
  unfold duckJoinTypeInfo
  cases List.lookup (str "Join Type") extra_info with
  | none => rfl
  | some v => rfl

theorem rawcost_not_in_duckJoinCond (extra_info : List (LStr × JVal)) :
    List.lookup (str "raw_cost") (duckJoinCondInfo extra_info) = none := by
  unfold duckJoinCondInfo
  cases List.lookup (str "Conditions") extra_info with
  | none => rfl
  | some v => rfl

theorem rawcost_not_in_duckInfo (extra_info : List (LStr × JVal)) :
    List.lookup (str "raw_cost") (duckInfoOf extra_info) = none := by
  unfold duckInfoOf
  refine lookup_append_none _ _ _ ?_ (rawcost_not_in_duckJoinCond extra_info)
  refine lookup_append_none _ _ _ ?_ (rawcost_not_in_duckJoinType extra_info)
  exact lookup_append_none _ _ _ rfl (rawcost_not_in_duckFilter extra_info)

/-- C5 counterexample: on the line `-> X (cost=.. rows=5)` the `cost=`
group is present but `float` raises; the adapter sets the sentinel 1000.0
but does not record any `raw_cost` entry. -/
theorem c5_counterexample :
    costGroup (str "-> X (cost=.. rows=5)") = some (str "..") ∧
    parsePyFloat (str "..") = none ∧
    (parse_mysql_operation_line (str "-> X (cost=.. rows=5)")).cost = sentinelCost ∧
    List.lookup (str "raw_cost")
      (parse_mysql_operation_line (str "-> X (cost=.. rows=5)")).info = none :=
  ⟨rfl, rfl, rfl, rfl⟩

/-- C5 amended: whenever a cost (or cardinality-as-cost) field is present
in the raw payload but fails to parse as a number, both adapters set the
node's cost to the 1000.0 sentinel and raise no error; neither records a
`raw_cost` entry (no adapter ever writes that key). -/
theorem c5_amended_sentinel_no_rawcost :
    (∀ line g, costGroup line = some g → parsePyFloat g = none →
      (parse_mysql_operation_line line).cost = sentinelCost ∧
      List.lookup (str "raw_cost") (parse_mysql_operation_line line).info = none) ∧
    (∀ nm ei cs v,
      List.lookup (str "Estimated Cardinality") (Option.getD ei []) = some v →
      pyTruthy v = true → pyIntJ v = none →
      (parse_duckdb_json_plan (.mk nm ei cs)).cost = sentinelCost ∧
      List.lookup (str "raw_cost")
        (parse_duckdb_json_plan (.mk nm ei cs)).info = none) := by
  constructor
  · intro line g h1 h2
    constructor
    · show mysqlCostOf line = sentinelCost
      unfold mysqlCostOf
      rw [h1]
      dsimp only
      rw [h2]
    · exact rawcost_not_in_mysqlInfo line
  · intro nm ei cs v h1 h2 h3
    constructor
    · show duckCostOf (Option.getD ei []) = sentinelCost
      unfold duckCostOf
      rw [h1]
      dsimp only
      simp [h2, h3]
    · exact rawcost_not_in_duckInfo (Option.getD ei [])

/-- C5 witness: both sentinel branches fire on concrete inputs: the mysql
line `-> X (cost=.. rows=5)` and a duckdb node whose estimated cardinality
is the unparsable string `abc`. -/
theorem c5_amended_sentinel_no_rawcost_witness :
    ((parse_mysql_operation_line (str "-> X (cost=.. rows=5)")).cost = sentinelCost ∧
      List.lookup (str "raw_cost")
        (parse_mysql_operation_line (str "-> X (cost=.. rows=5)")).info = none) ∧
    ((parse_duckdb_json_plan
        (.mk (some (str "SEQ_SCAN"))
          (some [(str "Estimated Cardinality", .jstr (str "abc"))]) [])).cost
        = sentinelCost ∧
      List.lookup (str "raw_cost")
        (parse_duckdb_json_plan
          (.mk (some (str "SEQ_SCAN"))
            (some [(str "Estimated Cardinality", .jstr (str "abc"))]) [])).info
        = none) :=
  ⟨c5_amended_sentinel_no_rawcost.1 (str "-> X (cost=.. rows=5)") (str "..") rfl rfl,
    c5_amended_sentinel_no_rawcost.2 (some (str "SEQ_SCAN"))
      (some [(str "Estimated Cardinality", .jstr (str "abc"))]) []
      (.jstr (str "abc")) rfl rfl rfl⟩

theorem lexLe_total (a b : LStr) : lexLe a b = true ∨ lexLe b a = true := by
  induction a generalizing b with
  | nil => exact Or.inl rfl
  | cons c cs ih =>
    cases b with
    | nil => exact Or.inr rfl
    | cons d ds =>
      rcases Nat.lt_trichotomy c.toNat d.toNat with hlt | heq | hgt
      · left
        simp [lexLe, hlt]
      · rcases ih ds with h | h
        · left
          simp [lexLe, heq, Nat.lt_irrefl, h]
        · right
          simp [lexLe, heq, Nat.lt_irrefl, h]
      · right
        simp [lexLe, hgt]

theorem lexLe_trans (a b c : LStr) (h1 : lexLe a b = true) (h2 : lexLe b c = true) :
    lexLe a c = true := by
  induction a generalizing b c with
  | nil => rfl
  | cons x xs ih =>
    cases b with
    | nil => simp [lexLe] at h1
    | cons y ys =>
      cases c with
      | nil => simp [lexLe] at h2
      | cons z zs =>
        simp only [lexLe] at h1 h2 ⊢
        rcases Nat.lt_trichotomy x.toNat y.toNat with hxy | hxy | hxy
        · rcases Nat.lt_trichotomy y.toNat z.toNat with hyz | hyz | hyz
          · simp [Nat.lt_trans hxy hyz]
          · simp [hyz ▸ hxy]
          · simp [hyz, Nat.lt_asymm hyz] at h2
        · rcases Nat.lt_trichotomy y.toNat z.toNat with hyz | hyz | hyz
          · simp [hxy ▸ hyz]
          · have hxz : x.toNat = z.toNat := hxy.trans hyz
            simp [hxy, Nat.lt_irrefl, hyz, hxz] at h1 h2 ⊢
            exact ih ys zs h1 h2
          · simp [hyz, Nat.lt_asymm hyz] at h2
        · simp [hxy, Nat.lt_asymm hxy] at h1

theorem mem_ordInsert (x y : LStr) (l : List LStr) :
    x ∈ ordInsert y l ↔ x = y ∨ x ∈ l := by
  induction l with
  | nil => simp [ordInsert]
  | cons z zs ih =>
    unfold ordInsert
    by_cases h : lexLe y z = true
    · simp [h]
    · simp only [Bool.not_eq_true] at h
      simp [h, ih]
      tauto

theorem ordInsert_perm (y : LStr) (l : List LStr) :
    (ordInsert y l).Perm (y :: l) := by
  induction l with
  | nil => exact List.Perm.refl _
  | cons z zs ih =>
    unfold ordInsert
    by_cases h : lexLe y z = true
    · simp [h]
    · simp only [Bool.not_eq_true] at h
      simp only [h]
      exact (List.Perm.cons z ih).trans (List.Perm.swap y z zs)

theorem pySorted_perm (l : List LStr) : (pySorted l).Perm l := by
  induction l with
  | nil => exact List.Perm.refl _
  | cons x xs ih =>
    unfold pySorted
    exact (ordInsert_perm x (pySorted xs)).trans (List.Perm.cons x ih)

theorem mem_pySorted (x : LStr) (l : List LStr) : x ∈ pySorted l ↔ x ∈ l :=
  (pySorted_perm l).mem_iff

theorem ordInsert_pairwise (y : LStr) (l : List LStr)
    (h : List.Pairwise (fun a b => lexLe a b = true) l) :
    List.Pairwise (fun a b => lexLe a b = true) (ordInsert y l) := by
  induction l with
  | nil => simp [ordInsert]
  | cons z zs ih =>
    rcases List.pairwise_cons.mp h with ⟨hz, hzs⟩
    unfold ordInsert
    by_cases hle : lexLe y z = true
    · rw [if_pos hle]
      refine List.pairwise_cons.mpr ⟨?_, h⟩
      intro b hb
      rcases List.mem_cons.mp hb with hb | hb
      · exact hb ▸ hle
      · exact lexLe_trans y z b hle (hz b hb)
    · rw [if_neg hle]
      refine List.pairwise_cons.mpr ⟨?_, ih hzs⟩
      intro b hb
      rcases (mem_ordInsert b y zs).mp hb with hb1 | hb1
      · rw [hb1]
        rcases lexLe_total y z with h1 | h1
        · exact absurd h1 hle
        · exact h1
      · exact hz b hb1

theorem pySorted_pairwise (l : List LStr) :
    List.Pairwise (fun a b => lexLe a b = true) (pySorted l) := by
  induction l with
  | nil => exact List.Pairwise.nil
  | cons x xs ih => exact ordInsert_pairwise x (pySorted xs) ih

theorem mem_pySortedSet (x : LStr) (l : List LStr) :
    x ∈ pySortedSet l ↔ x ∈ l := by
  unfold pySortedSet
  rw [mem_pySorted, List.mem_dedup]

theorem pySortedSet_nodup (l : List LStr) : (pySortedSet l).Nodup :=
  ((pySorted_perm l.dedup).nodup_iff).mpr l.nodup_dedup

/-- C9: after `SetPhysicalOps` with both arguments present, `scan_types`
is the sorted scan override, `join_types` the sorted join override, and
`all_ops` is the sorted duplicate-free union of the old `all_ops` minus
the old scan and join labels with the new scan and join labels — in
particular every overridden label is contained in `all_ops`. -/
theorem c9_set_physical_ops (w : WorkloadInfo) (jo so : List LStr) :
    (w.SetPhysicalOps (some jo) (some so)).scan_types = pySorted so ∧
    (w.SetPhysicalOps (some jo) (some so)).join_types = pySorted jo ∧
    (∀ x, x ∈ (w.SetPhysicalOps (some jo) (some so)).all_ops ↔
      ((x ∈ w.all_ops ∧ x ∉ w.scan_types ∧ x ∉ w.join_types) ∨ x ∈ so ∨ x ∈ jo)) ∧
    List.Pairwise (fun a b => lexLe a b = true)
      (w.SetPhysicalOps (some jo) (some so)).all_ops ∧
    (w.SetPhysicalOps (some jo) (some so)).all_ops.Nodup ∧
    (∀ x ∈ (w.SetPhysicalOps (some jo) (some so)).scan_types,
      x ∈ (w.SetPhysicalOps (some jo) (some so)).all_ops) ∧
    (∀ x ∈ (w.SetPhysicalOps (some jo) (some so)).join_types,
      x ∈ (w.SetPhysicalOps (some jo) (some so)).all_ops) := by
  have hmem : ∀ x, x ∈ (w.SetPhysicalOps (some jo) (some so)).all_ops ↔
      ((x ∈ w.all_ops ∧ x ∉ w.scan_types ∧ x ∉ w.join_types) ∨ x ∈ so ∨ x ∈ jo) := by
    intro x
    show x ∈ pySortedSet _ ↔ _
    rw [mem_pySortedSet]
    simp only [List.mem_append, List.mem_filter, decide_eq_true_eq, mem_pySorted]
    tauto
  refine ⟨rfl, rfl, hmem, ?_, ?_, ?_, ?_⟩
  · exact pySorted_pairwise _
  · exact pySortedSet_nodup _
  · intro x hx
    exact (hmem x).mpr (Or.inr (Or.inl ((mem_pySorted x so).mp hx)))
  · intro x hx
    exact (hmem x).mpr (Or.inr (Or.inr ((mem_pySorted x jo).mp hx)))

/-- C9 witness: with a concrete workload and concrete overrides, the
overridden scan label is contained in the rebuilt `all_ops`. -/
theorem c9_set_physical_ops_witness :
    str "Seq Scan" ∈
      ((WorkloadInfo.mk [str "Scan"] [str "Join"]
          [str "Aggregate", str "Join", str "Scan"]).SetPhysicalOps
        (some [str "Hash Join"]) (some [str "Seq Scan", str "Index Scan"])).all_ops :=
  ((c9_set_physical_ops
      (WorkloadInfo.mk [str "Scan"] [str "Join"]
        [str "Aggregate", str "Join", str "Scan"])
      [str "Hash Join"] [str "Seq Scan", str "Index Scan"]).2.2.2.2.2.1
    (str "Seq Scan") (by decide))

/-- Occurrence of a node inside a tree, mirroring the recursive `_fill`
visit of the `WorkloadInfo` constructor. -/
inductive SubNode : Node → Node → Prop where
  | refl (n : Node) : SubNode n n
  | child {n m p : Node} : m ∈ p.children → SubNode n m → SubNode n p

/-- A node the constructor visits: a node occurring in one of the roots. -/
def VisitedIn (n : Node) (nodes : List Node) : Prop :=
  ∃ r ∈ nodes, SubNode n r

theorem mem_collectScanTypesList (cs : List Node) (x : LStr) :
    x ∈ collectScanTypesList cs ↔ ∃ c ∈ cs, x ∈ collectScanTypes c := by
  induction cs with
  | nil => simp [collectScanTypesList]
  | cons c rest ih =>
    simp only [collectScanTypesList, List.mem_append, ih, List.mem_cons]
    constructor
    · rintro (h | ⟨d, hd, hx⟩)
      · exact ⟨c, Or.inl rfl, h⟩
      · exact ⟨d, Or.inr hd, hx⟩
    · rintro ⟨d, hd | hd, hx⟩
      · exact Or.inl (hd ▸ hx)
      · exact Or.inr ⟨d, hd, hx⟩

theorem collectScan_substr (r : Node) :
    ∀ x : LStr, x ∈ collectScanTypes r → isSubstr (str "Scan") x = true := by
  induction r using node_ind with
  | h core cs ih =>
    intro x hx
    rw [show collectScanTypes (.mk core cs)
        = (if isSubstr (str "Scan") core.node_type then [core.node_type] else []) ++
          collectScanTypesList cs from rfl] at hx
    rcases List.mem_append.mp hx with hx | hx
    · by_cases hcond : isSubstr (str "Scan") core.node_type = true
      · rw [if_pos hcond] at hx
        rcases List.mem_singleton.mp hx with rfl
        exact hcond
      · rw [if_neg hcond] at hx
        exact absurd hx (List.not_mem_nil x)
    · rcases (mem_collectScanTypesList cs x).mp hx with ⟨c, hc, hxc⟩
      exact ih c hc x hxc

theorem subnode_scan_mem (r n : Node) (hs : SubNode n r) :
    isSubstr (str "Scan") n.node_type = true → n.node_type ∈ collectScanTypes r := by
  induction hs with
  | refl =>
    intro hscan
    cases n with
    | mk core cs =>
      rw [show collectScanTypes (.mk core cs)
          = (if isSubstr (str "Scan") core.node_type then [core.node_type] else []) ++
            collectScanTypesList cs from rfl]
      refine List.mem_append.mpr (Or.inl ?_)
      have hscan2 : isSubstr (str "Scan") core.node_type = true := hscan
      rw [if_pos hscan2]
      exact List.mem_singleton.mpr rfl
  | child hmem hsub ih =>
    intro hscan
    rename_i m p
    cases p with
    | mk core cs =>
      rw [show collectScanTypes (.mk core cs)
          = (if isSubstr (str "Scan") core.node_type then [core.node_type] else []) ++
            collectScanTypesList cs from rfl]
      refine List.mem_append.mpr (Or.inr ?_)
      exact (mem_collectScanTypesList cs _).mpr ⟨m, hmem, ih hscan⟩

/-- C10: during `WorkloadInfo` construction, a visited node's operator
label lands in `scan_types` exactly when it contains the case-sensitive
substring `Scan`; consequently labels differing only in case — such as the
`SEQ_SCAN` the JSON adapter stores unchanged — are never collected as scan
labels, for any forest. -/
theorem c10_scan_collection_case_sensitive :
    (∀ (isJoinB : LStr → Bool) (nodes : List Node) (n : Node), VisitedIn n nodes →
      (n.node_type ∈ (WorkloadInfo.ofNodes isJoinB nodes).scan_types ↔
        isSubstr (str "Scan") n.node_type = true)) ∧
    (∀ (isJoinB : LStr → Bool) (nodes : List Node),
      str "SEQ_SCAN" ∉ (WorkloadInfo.ofNodes isJoinB nodes).scan_types) ∧
    (parse_duckdb_json_plan
      (.mk (some (str "SEQ_SCAN")) (some [(str "Table", .jstr (str "t"))]) [])).node_type
      = str "SEQ_SCAN" ∧
    isSubstr (str "Scan") (str "SEQ_SCAN") = false := by
  have hmem : ∀ (isJoinB : LStr → Bool) (nodes : List Node) (x : LStr),
      x ∈ (WorkloadInfo.ofNodes isJoinB nodes).scan_types ↔
        x ∈ collectScanTypesList nodes := by
    intro isJoinB nodes x
    show x ∈ pySortedSet _ ↔ _
    rw [mem_pySortedSet]
  refine ⟨?_, ?_, rfl, rfl⟩
  · intro isJoinB nodes n hv
    rw [hmem]
    constructor
    · intro hx
      rcases (mem_collectScanTypesList nodes _).mp hx with ⟨c, hc, hxc⟩
      exact collectScan_substr c _ hxc
    · intro hscan
      rcases hv with ⟨r, hr, hsub⟩
      exact (mem_collectScanTypesList nodes _).mpr
        ⟨r, hr, subnode_scan_mem r n hsub hscan⟩
  · intro isJoinB nodes hx
    rw [hmem] at hx
    rcases (mem_collectScanTypesList nodes _).mp hx with ⟨c, hc, hxc⟩
    have : isSubstr (str "Scan") (str "SEQ_SCAN") = true := collectScan_substr c _ hxc
    exact absurd this (by decide)

/-- C10 witness: a mysql scan node whose canonical label `Seq Scan` does
contain `Scan` is collected into `scan_types` when it is the only root. -/
theorem c10_scan_collection_case_sensitive_witness :
    (parse_mysql_operation_line (str "-> Table scan on title (cost=1 rows=1)")).node_type ∈
      (WorkloadInfo.ofNodes (fun _ => false)
        [parse_mysql_operation_line (str "-> Table scan on title (cost=1 rows=1)")]).scan_types :=
  (c10_scan_collection_case_sensitive.1 (fun _ => false)
    [parse_mysql_operation_line (str "-> Table scan on title (cost=1 rows=1)")]
    (parse_mysql_operation_line (str "-> Table scan on title (cost=1 rows=1)"))
    ⟨parse_mysql_operation_line (str "-> Table scan on title (cost=1 rows=1)"),
      List.mem_singleton.mpr rfl, SubNode.refl _⟩).mpr (by decide)

mutual
/-- Whether a node with the given operator label occurs in the tree. -/
def hasType : Node → LStr → Bool
  | .mk core cs, ty => core.node_type == ty || hasTypeList cs ty
termination_by structural n => n

/-- Forest counterpart of `hasType`. -/
def hasTypeList : List Node → LStr → Bool
  | [], _ => false
  | n :: ns, ty => hasType n ty || hasTypeList ns ty
termination_by structural l => l
end

mutual
/-- Whether some subtree rooted at a node labelled `a` has a strict
descendant labelled `d`. -/
def ancDesc : Node → LStr → LStr → Bool
  | .mk core cs, a, d =>
    (core.node_type == a && hasTypeList cs d) || ancDescList cs a d
termination_by structural n => n

/-- Forest counterpart of `ancDesc`. -/
def ancDescList : List Node → LStr → LStr → Bool
  | [], _, _ => false
  | n :: ns, a, d => ancDesc n a d || ancDescList ns a d
termination_by structural l => l
end

/-- C3 counterexample: on the four retained lines below, the last line
sits at indentation level 2 while the most recently seen level-1 node is
the one parsed from `    -> m`; the adapter attaches the level-2 node
under the second level-0 node `x` instead, so it is not a descendant of
the most recent level-1 node. -/
theorem c3_counterexample :
    mysqlItems [str "-> a", str "    -> m", str "-> x", str "        -> c"]
      = [(0, str "-> a"), (1, str "    -> m"), (0, str "-> x"),
         (2, str "        -> c")] ∧
    ((parse_mysql_text_plan
        [str "-> a", str "    -> m", str "-> x", str "        -> c"]).children.map
      Node.node_type) = [str "m", str "x"] ∧
    ((parse_mysql_text_plan
        [str "-> a", str "    -> m", str "-> x", str "        -> c"]).children.map
      (fun n => n.children.map Node.node_type)) = [[], [str "c"]] ∧
    ancDesc (parse_mysql_text_plan
        [str "-> a", str "    -> m", str "-> x", str "        -> c"])
      (str "m") (str "c") = false ∧
    ancDesc (parse_mysql_text_plan
        [str "-> a", str "    -> m", str "-> x", str "        -> c"])
      (str "x") (str "c") = true :=
  ⟨rfl, rfl, rfl, rfl, rfl⟩

/-- Indent level at the root of a level-tagged tree. -/
def rootLev {α : Type} : ITree (Nat × α) → Nat
  | .node a _ => a.1

/-- Non-increasing test over a list of levels. -/
def nonIncL : List Nat → Bool
  | [] => true
  | [_] => true
  | a :: b :: r => decide (b ≤ a) && nonIncL (b :: r)

mutual
/-- The sibling invariant of the indentation tree: every node's ordered
children carry non-increasing indent levels, so no node is ever attached
as a sibling of a strictly shallower one. -/
def monoT {α : Type} : ITree (Nat × α) → Bool
  | .node _ cs => nonIncL (cs.map rootLev) && monoF cs
termination_by structural t => t

/-- Forest counterpart of `monoT`. -/
def monoF {α : Type} : List (ITree (Nat × α)) → Bool
  | [] => true
  | c :: cs => monoT c && monoF cs
termination_by structural l => l
end

/-- Indent level of the payload of an open frame. -/
def frameLev {α : Type} (f : BFrame (Nat × α)) : Nat := f.1.1

/-- Shape of the completed children of a frame at bottom index `i`: all
monotone, the chronologically first at level at least `i`, and every later
one at level exactly `i`. -/
def childOK {α : Type} (i : Nat) (cs : List (ITree (Nat × α))) : Prop :=
  (∀ t ∈ cs, monoT t = true) ∧
  match cs with
  | [] => True
  | c :: rest => i ≤ rootLev c ∧ ∀ d ∈ rest, rootLev d = i

/-- Invariant of one frame at bottom index `i`: its level is at least
`i - 1`, and its children have the `childOK` shape. -/
def frameOK {α : Type} (i : Nat) (f : BFrame (Nat × α)) : Prop :=
  (1 ≤ i → i - 1 ≤ frameLev f) ∧ childOK i f.2

/-- Invariant of the whole open stack (stored top first; a frame's bottom
index is the length of the list below it): every frame satisfies
`frameOK`, and a frame sitting on a frame that already has children must
be at exactly that frame's bottom index. -/
def InvT {α : Type} : List (BFrame (Nat × α)) → Prop
  | [] => True
  | f :: rest =>
    frameOK rest.length f ∧
    (match rest with
     | [] => True
     | g :: _ => g.2 ≠ [] → frameLev f = rest.length - 1) ∧
    InvT rest

/-- The top frame of the stack has no children yet (it was pushed by the
previous line and nothing has been popped into it). -/
def headEmpty {α : Type} : List (BFrame (Nat × α)) → Prop
  | [] => True
  | f :: _ => f.2 = []

theorem nonIncL_head_const (a i : Nat) (ls : List Nat) (h1 : i ≤ a)
    (h2 : ∀ x ∈ ls, x = i) : nonIncL (a :: ls) = true := by
  induction ls generalizing a with
  | nil => rfl
  | cons x r ih =>
    have hx : x = i := h2 x (List.mem_cons_self x r)
    unfold nonIncL
    rw [Bool.and_eq_true]
    constructor
    · exact decide_eq_true (hx ▸ h1)
    · exact ih x (le_of_eq hx.symm) (fun y hy => h2 y (List.mem_cons_of_mem x hy))

theorem monoF_of_forall {α : Type} (cs : List (ITree (Nat × α)))
    (h : ∀ t ∈ cs, monoT t = true) : monoF cs = true := by
  induction cs with
  | nil => rfl
  | cons c rest ih =>
    unfold monoF
    rw [Bool.and_eq_true]
    exact ⟨h c (List.mem_cons_self c rest),
      ih (fun t ht => h t (List.mem_cons_of_mem c ht))⟩

theorem childOK_monoT {α : Type} (i : Nat) (a : Nat × α)
    (cs : List (ITree (Nat × α))) (h : childOK i cs) :
    monoT (ITree.node a cs) = true := by
  unfold monoT
  rw [Bool.and_eq_true]
  rcases h with ⟨hall, hshape⟩
  refine ⟨?_, monoF_of_forall cs hall⟩
  cases cs with
  | nil => rfl
  | cons c rest =>
    rcases hshape with ⟨h1, h2⟩
    rw [List.map_cons]
    exact nonIncL_head_const (rootLev c) i (rest.map rootLev) h1
      (by
        intro x hx
        rcases List.mem_map.mp hx with ⟨d, hd, rfl⟩
        exact h2 d hd)

theorem childOK_append {α : Type} (i : Nat) (cs : List (ITree (Nat × α)))
    (t : ITree (Nat × α)) (h : childOK i cs) (hmono : monoT t = true)
    (hfirst : cs = [] → i ≤ rootLev t) (hlater : cs ≠ [] → rootLev t = i) :
    childOK i (cs ++ [t]) := by
  rcases h with ⟨hall, hshape⟩
  constructor
  · intro u hu
    rcases List.mem_append.mp hu with hu | hu
    · exact hall u hu
    · rcases List.mem_singleton.mp hu with rfl
      exact hmono
  · cases cs with
    | nil =>
      exact ⟨hfirst rfl, fun d hd => absurd hd (List.not_mem_nil d)⟩
    | cons c rest =>
      rcases hshape with ⟨h1, h2⟩
      rw [List.cons_append]
      refine ⟨h1, ?_⟩
      intro d hd
      rcases List.mem_append.mp hd with hd | hd
      · exact h2 d hd
      · rcases List.mem_singleton.mp hd with rfl
        exact hlater (by simp)

theorem InvT_cons {α : Type} (f : BFrame (Nat × α)) (rest : List (BFrame (Nat × α))) :
    InvT (f :: rest) ↔
      frameOK rest.length f ∧
      (match rest with
       | [] => True
       | g :: _ => g.2 ≠ [] → frameLev f = rest.length - 1) ∧
      InvT rest := Iff.rfl

theorem frameLev_closeTop {α : Type} (f1 f2 : BFrame (Nat × α)) :
    frameLev (closeTop f1 f2) = frameLev f2 := rfl

theorem closeTop_inv {α : Type} (f1 f2 : BFrame (Nat × α))
    (rest : List (BFrame (Nat × α))) (h : InvT (f1 :: f2 :: rest)) :
    InvT (closeTop f1 f2 :: rest) := by
  obtain ⟨hf1, hadj1, htail⟩ := (InvT_cons f1 (f2 :: rest)).mp h
  obtain ⟨hf2, hadj2, hrest⟩ := (InvT_cons f2 rest).mp htail
  refine (InvT_cons _ rest).mpr ⟨⟨hf2.1, ?_⟩, hadj2, hrest⟩
  refine childOK_append rest.length f2.2 (ITree.node f1.1 f1.2) hf2.2 ?_ ?_ ?_
  · exact childOK_monoT (f2 :: rest).length f1.1 f1.2 hf1.2
  · intro _
    have h1 : (f2 :: rest).length - 1 ≤ frameLev f1 := hf1.1 (by simp)
    simpa using h1
  · intro hne
    have h2 : frameLev f1 = (f2 :: rest).length - 1 := hadj1 hne
    simpa using h2

theorem popN_inv {α : Type} :
    ∀ (k : Nat) (s : List (BFrame (Nat × α))), InvT s → InvT (popN k s)
  | 0, _, h => h
  | _ + 1, [], h => h
  | _ + 1, [_], h => h
  | k + 1, f1 :: f2 :: rest, h => popN_inv k _ (closeTop_inv f1 f2 rest h)

theorem popN_ne_nil {α : Type} :
    ∀ (k : Nat) (s : List (BFrame (Nat × α))), s ≠ [] → popN k s ≠ []
  | 0, _, h => h
  | _ + 1, [], h => h
  | _ + 1, [f], _ => by simp [popN]
  | k + 1, f1 :: f2 :: rest, _ => popN_ne_nil k _ (by simp)

theorem popN_length {α : Type} :
    ∀ (k : Nat) (s : List (BFrame (Nat × α))), 1 ≤ s.length →
      (popN k s).length = max (s.length - k) 1
  | 0, s, h => by
    rw [popN]
    omega
  | k + 1, [], h => by simp at h
  | k + 1, [f], _ => by
    rw [popN]
    simp
  | k + 1, f1 :: f2 :: rest, _ => by
    rw [popN, popN_length k (closeTop f1 f2 :: rest) (by simp)]
    simp only [List.length_cons]
    omega

theorem popTo_eq_self {α : Type} (n : Nat) (s : List (BFrame (Nat × α)))
    (h : s.length ≤ n) : popTo n s = s := by
  unfold popTo
  rw [Nat.sub_eq_zero_of_le h]
  rfl

theorem popTo_length {α : Type} (n : Nat) (s : List (BFrame (Nat × α)))
    (hn : 1 ≤ n) (hs : 1 ≤ s.length) :
    (popTo n s).length = min s.length n := by
  unfold popTo
  rw [popN_length _ _ hs]
  omega

theorem stepB_ne_nil {α : Type} (s : List (BFrame (Nat × α))) (item : Nat × α) :
    stepB s item ≠ [] := by
  cases s with
  | nil => simp [stepB]
  | cons f ss => simp [stepB]

theorem stepB_inv {α : Type} (s : List (BFrame (Nat × α))) (item : Nat × α)
    (hinv : InvT s) (he : headEmpty s) :
    InvT (stepB s item) ∧ headEmpty (stepB s item) := by
  cases s with
  | nil =>
    constructor
    · refine (InvT_cons _ []).mpr ⟨⟨?_, ?_, trivial⟩, trivial, trivial⟩
      · intro h10
        exact absurd h10 (by simp)
      · intro t ht
        exact absurd ht (List.not_mem_nil t)
    · rfl
  | cons f ss =>
    have hinv' : InvT (popTo (item.1 + 1) (f :: ss)) := popN_inv _ _ hinv
    have hne : popTo (item.1 + 1) (f :: ss) ≠ [] :=
      popN_ne_nil _ _ (by simp)
    have hlen : (popTo (item.1 + 1) (f :: ss)).length
        = min (f :: ss).length (item.1 + 1) :=
      popTo_length _ _ (by omega) (by simp)
    constructor
    · refine (InvT_cons _ _).mpr ⟨⟨?_, ?_⟩, ?_, hinv'⟩
      · intro _
        show (popTo (item.1 + 1) (f :: ss)).length - 1 ≤ item.1
        omega
      · exact ⟨fun t ht => absurd ht (List.not_mem_nil t), trivial⟩
      · cases hcase : popTo (item.1 + 1) (f :: ss) with
        | nil => trivial
        | cons g gs =>
          intro hg
          show item.1 = (g :: gs).length - 1
          by_cases hc : (f :: ss).length ≤ item.1 + 1
          · have heq : popTo (item.1 + 1) (f :: ss) = f :: ss :=
              popTo_eq_self _ _ hc
            rw [heq] at hcase
            have hgf : g = f := (List.cons.injEq _ _ _ _).mp hcase.symm |>.1
            have : g.2 = [] := by
              rw [hgf]
              exact he
            exact absurd this hg
          · rw [hcase] at hlen
            simp only [List.length_cons] at hlen hc ⊢
            omega
    · rfl

theorem foldl_stepB_inv {α : Type} :
    ∀ (items : List (Nat × α)) (s : List (BFrame (Nat × α))),
      InvT s → headEmpty s →
      InvT (items.foldl stepB s) ∧ headEmpty (items.foldl stepB s)
  | [], s, h1, h2 => ⟨h1, h2⟩
  | it :: rest, s, h1, h2 => by
    rw [List.foldl_cons]
    obtain ⟨h1', h2'⟩ := stepB_inv s it h1 h2
    exact foldl_stepB_inv rest _ h1' h2'

theorem foldl_stepB_ne_nil {α : Type} :
    ∀ (items : List (Nat × α)) (s : List (BFrame (Nat × α))), s ≠ [] →
      items.foldl stepB s ≠ []
  | [], s, h => h
  | it :: rest, s, _ => by
    rw [List.foldl_cons]
    exact foldl_stepB_ne_nil rest _ (stepB_ne_nil s it)

/-- Payload of the bottom (root) frame of the stack. -/
def bottomPayload {α : Type} (s : List (BFrame (Nat × α))) : Option (Nat × α) :=
  s.getLast?.map (fun f => f.1)

theorem closeTop_bottom {α : Type} (f1 f2 : BFrame (Nat × α))
    (rest : List (BFrame (Nat × α))) :
    bottomPayload (closeTop f1 f2 :: rest) = bottomPayload (f1 :: f2 :: rest) := by
  cases rest with
  | nil => rfl
  | cons g gs =>
    unfold bottomPayload
    rw [List.getLast?_cons_cons, List.getLast?_cons_cons, List.getLast?_cons_cons]

theorem popN_bottom {α : Type} :
    ∀ (k : Nat) (s : List (BFrame (Nat × α))),
      bottomPayload (popN k s) = bottomPayload s
  | 0, _ => rfl
  | _ + 1, [] => rfl
  | _ + 1, [_] => rfl
  | k + 1, f1 :: f2 :: rest => by
    rw [popN, popN_bottom k _, closeTop_bottom]

theorem bottomPayload_cons {α : Type} (f : BFrame (Nat × α))
    (s : List (BFrame (Nat × α))) (h : s ≠ []) :
    bottomPayload (f :: s) = bottomPayload s := by
  cases s with
  | nil => exact absurd rfl h
  | cons g gs =>
    unfold bottomPayload
    rw [List.getLast?_cons_cons]

theorem stepB_bottom {α : Type} (s : List (BFrame (Nat × α))) (item : Nat × α)
    (h : s ≠ []) : bottomPayload (stepB s item) = bottomPayload s := by
  cases s with
  | nil => exact absurd rfl h
  | cons f ss =>
    show bottomPayload ((item, []) :: popTo (item.1 + 1) (f :: ss))
      = bottomPayload (f :: ss)
    have hne2 : popTo (item.1 + 1) (f :: ss) ≠ [] := popN_ne_nil _ _ (by simp)
    rw [bottomPayload_cons _ _ hne2]
    exact popN_bottom _ _

theorem foldl_stepB_bottom {α : Type} :
    ∀ (items : List (Nat × α)) (s : List (BFrame (Nat × α))), s ≠ [] →
      bottomPayload (items.foldl stepB s) = bottomPayload s
  | [], _, _ => rfl
  | it :: rest, s, h => by
    rw [List.foldl_cons,
      foldl_stepB_bottom rest (stepB s it) (stepB_ne_nil s it),
      stepB_bottom s it h]

/-- C3 amended: for every indented-text payload whose retained lines build
a tree, every node's ordered children carry non-increasing indent levels —
so a line is never attached as a sibling of a node at a strictly shallower
level — and every retained line ends up inside the single tree rooted at
the first retained line.  The original claim's stronger clause, that a
level-`L` line always becomes a descendant of the most recently seen
level-`L-1` node, is refuted by `c3_counterexample`. -/
theorem c3_amended_sibling_invariant (lines : List LStr) (t : ITree (Nat × LStr))
    (h : buildStack (mysqlItems lines) = some t) :
    parse_mysql_text_plan lines = treeToNode t ∧
    monoT t = true ∧
    (mysqlItems lines).head? = some t.rootLabel := by
  have hparse : parse_mysql_text_plan lines = treeToNode t := by
    unfold parse_mysql_text_plan
    rw [h]
  rcases hitems : mysqlItems lines with _ | ⟨it, rest⟩
  · rw [hitems] at h
    exact absurd h (by simp [buildStack, collapseStack, popTo, popN])
  · rw [hitems] at h
    unfold buildStack collapseStack at h
    have hSne : (it :: rest).foldl stepB ([] : List (BFrame (Nat × LStr))) ≠ [] := by
      rw [List.foldl_cons]
      exact foldl_stepB_ne_nil rest _ (stepB_ne_nil [] it)
    have hS1 : 1 ≤ ((it :: rest).foldl stepB ([] : List (BFrame (Nat × LStr)))).length := by
      cases hS : (it :: rest).foldl stepB ([] : List (BFrame (Nat × LStr))) with
      | nil => exact absurd hS hSne
      | cons g gs => simp
    obtain ⟨hSinv, _⟩ :=
      foldl_stepB_inv (it :: rest) ([] : List (BFrame (Nat × LStr))) trivial trivial
    have hPinv : InvT (popTo 1 ((it :: rest).foldl stepB [])) := popN_inv _ _ hSinv
    have hPlen : (popTo 1 ((it :: rest).foldl stepB
        ([] : List (BFrame (Nat × LStr))))).length = 1 := by
      rw [popTo_length 1 _ (by omega) hS1]
      omega
    rcases hP : popTo 1 ((it :: rest).foldl stepB ([] : List (BFrame (Nat × LStr)))) with
      _ | ⟨f, fs⟩
    · rw [hP] at hPlen
      simp at hPlen
    · have hfs : fs = [] := by
        rw [hP] at hPlen
        simpa using hPlen
      subst hfs
      rw [hP] at h hPinv
      have ht : t = ITree.node f.1 f.2 := (Option.some.inj h).symm
      obtain ⟨hfOK, _, _⟩ := (InvT_cons f []).mp hPinv
      have hmono : monoT t = true := by
        rw [ht]
        exact childOK_monoT _ f.1 f.2 hfOK.2
      refine ⟨hparse, hmono, ?_⟩
      have hb2 : bottomPayload ((it :: rest).foldl stepB ([] : List (BFrame (Nat × LStr))))
          = some it := by
        rw [List.foldl_cons]
        rw [foldl_stepB_bottom rest _ (stepB_ne_nil [] it)]
        rfl
      have hb1 : bottomPayload [f] = some it := by
        rw [← hP]
        exact (popN_bottom _ _).trans hb2
      have hf1 : f.1 = it := Option.some_injective _ hb1
      rw [ht, ← hf1]
      rfl

/-- C3 amended witness: the four-line counterexample payload builds a tree
whose every child list carries non-increasing levels, rooted at the first
retained line. -/
theorem c3_amended_sibling_invariant_witness :
    monoT (ITree.node ((0 : Nat), str "-> a")
      [ITree.node (1, str "    -> m") [],
       ITree.node (0, str "-> x") [ITree.node (2, str "        -> c") []]]) = true :=
  (c3_amended_sibling_invariant
    [str "-> a", str "    -> m", str "-> x", str "        -> c"]
    (ITree.node ((0 : Nat), str "-> a")
      [ITree.node (1, str "    -> m") [],
       ITree.node (0, str "-> x") [ITree.node (2, str "        -> c") []]])
    rfl).2.1
